import Mathlib

/-!
# Ownership semantics of `UniquePtr<T>` and `SharedPtr<T>`

A shallow embedding of `09_11_smartPointers.cpp`.

* Objects (the smart pointer instances) live in an object store keyed by the
  place of the object (`this`); heap allocations live in a cell store keyed by
  their address.  Both stores are association lists, so every definition can be
  evaluated.
* A raw pointer is an `Option Addr`; `none` is `nullptr`.
* Every `delete` is recorded, in order, in the `freed` log.  For `UniquePtr`
  the log entry is also the release notification printed by `reset`.
* Behaviour that C++ leaves undefined (using an object that is not alive,
  dereferencing or deleting a null, dangling or wrongly typed pointer) is a
  `Fault`.
* `delete pointer` runs `~T()` before the storage is given back.  The first
  family of definitions (`UniquePtr.reset`, `SharedPtr.decrementRefCount` and
  their callers) is for a pointee without smart-pointer members, such as the
  `int` of `main`: there `~T()` does nothing.  The family `Owning` takes the
  places of the smart-pointer members of each pointee and runs their
  destructors; the two families agree on pointees without members.
-/

namespace SmartPointers

/-! ## Stores -/

/-- A non-null heap address. -/
abbrev Addr := Nat

/-- The value bound to key `k`, if any (first binding wins). -/
def lookup {β : Type} (k : Nat) : List (Nat × β) → Option β
  | [] => none
  | (k', v) :: l => if k' = k then some v else lookup k l

/-- Overwrite the value bound to `k`; a store without `k` is left as it is. -/
def update {β : Type} (k : Nat) (v : β) : List (Nat × β) → List (Nat × β)
  | [] => []
  | (k', v') :: l => if k' = k then (k, v) :: l else (k', v') :: update k v l

/-- Drop every binding of `k`. -/
def remove {β : Type} (k : Nat) : List (Nat × β) → List (Nat × β)
  | [] => []
  | (k', v') :: l => if k' = k then remove k l else (k', v') :: remove k l

/-! ## Memory -/

/-- Number of values of `size_t` (a 64-bit unsigned integer). -/
def SIZE_MOD : Nat := 2 ^ 64

/-- A heap allocation: a `T` made by the caller with `new T(v)`, or a
reference counter made by `new size_t(1)`. -/
inductive Cell (T : Type) where
  | val (v : T)
  | cnt (n : Nat)
  deriving DecidableEq

/-- Undefined behaviour and impossible environments, made explicit. -/
inductive Fault where
  /-- a member function runs on an object that is not alive, or an object is
  constructed in a place that is occupied -/
  | badObject
  /-- the allocator returns an address that is still in use, or there is no
  room for one more object -/
  | badAlloc
  /-- a null, dangling or wrongly typed pointer is dereferenced -/
  | invalidAccess
  /-- a dangling or wrongly typed pointer is deleted -/
  | invalidFree
  /-- the caller passes a raw pointer it was never handed -/
  | badCall
  /-- the depth allowed for a cascade of destructors is used up; this is a
  limit of the evaluation, not a behaviour of the program -/
  | outOfFuel
  deriving DecidableEq

/-- Program state: the live objects of class `O`, the live heap cells, and the
log of `delete` events. -/
structure World (O T : Type) where
  objs : List (Nat × O)
  cells : List (Addr × Cell T)
  freed : List Addr
  deriving DecidableEq

/-- The state before anything is constructed or allocated. -/
def World.init {O T : Type} : World O T := ⟨[], [], []⟩

/-- Allocation `new ...` returning address `a` with initial contents `c`. -/
def World.alloc {O T : Type} (w : World O T) (a : Addr) (c : Cell T) :
    Except Fault (World O T) :=
  match lookup a w.cells with
  | some _ => .error .badAlloc
  | none => .ok { w with cells := (a, c) :: w.cells }

/-- Statement `delete p` for `p : T*`, for a pointee without smart-pointer
members (`~T()` does nothing).  Deleting `nullptr` does nothing. -/
def World.deleteVal {O T : Type} (w : World O T) (p : Option Addr) :
    Except Fault (World O T) :=
  match p with
  | none => .ok w
  | some a =>
    match lookup a w.cells with
    | some (.val _) => .ok { w with cells := remove a w.cells, freed := w.freed ++ [a] }
    | _ => .error .invalidFree

/-- Statement `delete p` for a non-null `p : size_t*`. -/
def World.deleteCnt {O T : Type} (w : World O T) (a : Addr) :
    Except Fault (World O T) :=
  match lookup a w.cells with
  | some (.cnt _) => .ok { w with cells := remove a w.cells, freed := w.freed ++ [a] }
  | _ => .error .invalidFree

/-! ## `UniquePtr<T>` -/

/-- Data members of `UniquePtr<T>`. -/
structure UniquePtr where
  pointer : Option Addr
  deriving DecidableEq

/-- A state whose objects are `UniquePtr<T>` instances. -/
abbrev UState (T : Type) := World UniquePtr T

namespace UniquePtr

variable {T : Type}

/-- Constructor `explicit UniquePtr(T* ptr = nullptr) : pointer(ptr) {}`. -/
def ctor (s : UState T) (this : Nat) (ptr : Option Addr) : Except Fault (UState T) :=
  match lookup this s.objs with
  | some _ => .error .badObject
  | none => .ok { s with objs := (this, ⟨ptr⟩) :: s.objs }

/-- Member `void reset()`. -/
def reset (s : UState T) (this : Nat) : Except Fault (UState T) :=
  match lookup this s.objs with
  | none => .error .badObject
  | some o =>
    match o.pointer with
    | some p =>
      match s.deleteVal (some p) with
      | .error e => .error e
      | .ok s1 => .ok { s1 with objs := update this ⟨none⟩ s1.objs }
    | none => .ok { s with objs := update this ⟨none⟩ s.objs }

/-- Destructor `~UniquePtr() { reset(); }`; the object then ceases to exist. -/
def dtor (s : UState T) (this : Nat) : Except Fault (UState T) :=
  match reset s this with
  | .error e => .error e
  | .ok s1 => .ok { s1 with objs := remove this s1.objs }

/-- Move constructor `UniquePtr(UniquePtr&& other)`. -/
def moveCtor (s : UState T) (this other : Nat) : Except Fault (UState T) :=
  match lookup this s.objs, lookup other s.objs with
  | none, some o =>
    .ok { s with objs := update other ⟨none⟩ ((this, ⟨o.pointer⟩) :: s.objs) }
  | _, _ => .error .badObject

/-- Move assignment `UniquePtr& operator=(UniquePtr&& other)`. -/
def moveAssign (s : UState T) (this other : Nat) : Except Fault (UState T) :=
  match lookup this s.objs, lookup other s.objs with
  | some _, some _ =>
    if this ≠ other then
      match reset s this with
      | .error e => .error e
      | .ok s1 =>
        match lookup other s1.objs with
        | none => .error .badObject
        | some o =>
          .ok { s1 with objs := update other ⟨none⟩ (update this ⟨o.pointer⟩ s1.objs) }
    else .ok s
  | _, _ => .error .badObject

/-- Dereference `T& operator*() const`, read as the value referred to. -/
def deref (s : UState T) (this : Nat) : Except Fault T :=
  match lookup this s.objs with
  | none => .error .badObject
  | some o =>
    match o.pointer with
    | none => .error .invalidAccess
    | some p =>
      match lookup p s.cells with
      | some (.val v) => .ok v
      | _ => .error .invalidAccess

/-- Member `T* get() const`. -/
def get (s : UState T) (this : Nat) : Except Fault (Option Addr) :=
  match lookup this s.objs with
  | none => .error .badObject
  | some o => .ok o.pointer

/-- Member `T* release()`: the returned pointer and the new state. -/
def release (s : UState T) (this : Nat) : Except Fault (Option Addr × UState T) :=
  match lookup this s.objs with
  | none => .error .badObject
  | some o => .ok (o.pointer, { s with objs := update this ⟨none⟩ s.objs })

end UniquePtr

/-! ## `SharedPtr<T>` -/

/-- Data members of `SharedPtr<T>`. -/
structure SharedPtr where
  pointer : Option Addr
  refCount : Option Addr
  deriving DecidableEq

/-- A state whose objects are `SharedPtr<T>` instances. -/
abbrev SState (T : Type) := World SharedPtr T

namespace SharedPtr

variable {T : Type}

/-- Private member `void incrementRefCount()`; `(*refCount)++` is `size_t`
arithmetic. -/
def incrementRefCount (s : SState T) (this : Nat) : Except Fault (SState T) :=
  match lookup this s.objs with
  | none => .error .badObject
  | some o =>
    match o.refCount with
    | none => .ok s
    | some c =>
      match lookup c s.cells with
      | some (.cnt n) =>
        .ok { s with cells := update c (.cnt ((n + 1) % SIZE_MOD)) s.cells }
      | _ => .error .invalidAccess

/-- Private member `void decrementRefCount()`; `(*refCount)--` is `size_t`
arithmetic, and at zero `delete pointer; delete refCount;` run in this order.
The members `pointer` and `refCount` are not written. -/
def decrementRefCount (s : SState T) (this : Nat) : Except Fault (SState T) :=
  match lookup this s.objs with
  | none => .error .badObject
  | some o =>
    match o.refCount with
    | none => .ok s
    | some c =>
      match lookup c s.cells with
      | some (.cnt n) =>
        let n' := (n + (SIZE_MOD - 1)) % SIZE_MOD
        let s1 : SState T := { s with cells := update c (.cnt n') s.cells }
        if n' = 0 then
          match s1.deleteVal o.pointer with
          | .error e => .error e
          | .ok s2 => s2.deleteCnt c
        else .ok s1
      | _ => .error .invalidAccess

/-- Constructor `explicit SharedPtr(T* ptr = nullptr)`; `c` is the address
that `new size_t(1)` returns. -/
def ctor (s : SState T) (this : Nat) (ptr : Option Addr) (c : Addr) :
    Except Fault (SState T) :=
  match lookup this s.objs with
  | some _ => .error .badObject
  | none =>
    match s.alloc c (.cnt 1) with
    | .error e => .error e
    | .ok s1 => .ok { s1 with objs := (this, ⟨ptr, some c⟩) :: s1.objs }

/-- Copy constructor `SharedPtr(const SharedPtr& other)`. -/
def copyCtor (s : SState T) (this other : Nat) : Except Fault (SState T) :=
  match lookup this s.objs, lookup other s.objs with
  | none, some o =>
    incrementRefCount { s with objs := (this, ⟨o.pointer, o.refCount⟩) :: s.objs } this
  | _, _ => .error .badObject

/-- Destructor `~SharedPtr() { decrementRefCount(); }`; the object then ceases
to exist. -/
def dtor (s : SState T) (this : Nat) : Except Fault (SState T) :=
  match decrementRefCount s this with
  | .error e => .error e
  | .ok s1 => .ok { s1 with objs := remove this s1.objs }

/-- Copy assignment `SharedPtr& operator=(const SharedPtr& other)`. -/
def copyAssign (s : SState T) (this other : Nat) : Except Fault (SState T) :=
  match lookup this s.objs, lookup other s.objs with
  | some _, some _ =>
    if this ≠ other then
      match decrementRefCount s this with
      | .error e => .error e
      | .ok s1 =>
        match lookup other s1.objs with
        | none => .error .badObject
        | some o =>
          incrementRefCount
            { s1 with objs := update this ⟨o.pointer, o.refCount⟩ s1.objs } this
    else .ok s
  | _, _ => .error .badObject

/-- Assignment `SharedPtr& operator=(std::nullptr_t)`. -/
def assignNull (s : SState T) (this : Nat) : Except Fault (SState T) :=
  match decrementRefCount s this with
  | .error e => .error e
  | .ok s1 => .ok { s1 with objs := update this ⟨none, none⟩ s1.objs }

/-- Dereference `T& operator*() const`, read as the value referred to. -/
def deref (s : SState T) (this : Nat) : Except Fault T :=
  match lookup this s.objs with
  | none => .error .badObject
  | some o =>
    match o.pointer with
    | none => .error .invalidAccess
    | some p =>
      match lookup p s.cells with
      | some (.val v) => .ok v
      | _ => .error .invalidAccess

/-- Member `T* get() const`. -/
def get (s : SState T) (this : Nat) : Except Fault (Option Addr) :=
  match lookup this s.objs with
  | none => .error .badObject
  | some o => .ok o.pointer

/-- Member `size_t use_count() const`. -/
def use_count (s : SState T) (this : Nat) : Except Fault Nat :=
  match lookup this s.objs with
  | none => .error .badObject
  | some o =>
    match o.refCount with
    | none => .ok 0
    | some c =>
      match lookup c s.cells with
      | some (.cnt n) => .ok n
      | _ => .error .invalidAccess

end SharedPtr

/-! ## Sequences of caller actions -/

/-- What a caller does with `SharedPtr<T>` objects. -/
inductive SOp (T : Type) where
  /-- Statement `SharedPtr<T> x(new T(v));` with `new T(v)` at `a`, the counter at `c` -/
  | construct (this : Nat) (a : Addr) (v : T) (c : Addr)
  /-- Statement `SharedPtr<T> x;` with the counter at `c` -/
  | constructNull (this : Nat) (c : Addr)
  /-- Statement `SharedPtr<T> x = y;` -/
  | copyConstruct (this other : Nat)
  /-- Statement `x = y;` -/
  | copyAssign (this other : Nat)
  /-- Statement `x = nullptr;` -/
  | assignNull (this : Nat)
  /-- the lifetime of `x` ends -/
  | destroy (this : Nat)
  deriving DecidableEq

/-- The object an action is applied to. -/
def SOp.target {T : Type} : SOp T → Nat
  | .construct this _ _ _ => this
  | .constructNull this _ => this
  | .copyConstruct this _ => this
  | .copyAssign this _ => this
  | .assignNull this => this
  | .destroy this => this

/-- Whether the action brings a new object to life. -/
def SOp.creates {T : Type} : SOp T → Bool
  | .construct _ _ _ _ => true
  | .constructNull _ _ => true
  | .copyConstruct _ _ => true
  | _ => false

/-- Run the code of one action. -/
def SOp.exec {T : Type} (s : SState T) : SOp T → Except Fault (SState T)
  | .construct this a v c =>
    match s.alloc a (.val v) with
    | .error e => .error e
    | .ok s1 => SharedPtr.ctor s1 this (some a) c
  | .constructNull this c => SharedPtr.ctor s this none c
  | .copyConstruct this other => SharedPtr.copyCtor s this other
  | .copyAssign this other => SharedPtr.copyAssign s this other
  | .assignNull this => SharedPtr.assignNull s this
  | .destroy this => SharedPtr.dtor s this

/-- One action on a machine with room for fewer than `SIZE_MOD` objects at a
time: every live object occupies storage of its own in an address space that
`size_t` can index. -/
def SharedPtr.step {T : Type} (s : SState T) (op : SOp T) : Except Fault (SState T) :=
  if op.creates = true ∧ SIZE_MOD ≤ s.objs.length + 1 then .error .badAlloc
  else op.exec s

/-- A sequence of actions, stopped by the first fault. -/
def SharedPtr.run {T : Type} (s : SState T) : List (SOp T) → Except Fault (SState T)
  | [] => .ok s
  | op :: ops =>
    match SharedPtr.step s op with
    | .error e => .error e
    | .ok s1 => SharedPtr.run s1 ops

/-- What a caller does with `UniquePtr<T>` objects. -/
inductive UOp (T : Type) where
  /-- Statement `UniquePtr<T> x(new T(v));` with `new T(v)` at `a` -/
  | constructFresh (this : Nat) (a : Addr) (v : T)
  /-- Statement `UniquePtr<T> x;` -/
  | constructNull (this : Nat)
  /-- Statement `UniquePtr<T> x(p);` for a `p` that `release()` returned earlier -/
  | constructReleased (this : Nat) (a : Addr)
  /-- Statement `UniquePtr<T> x = std::move(y);` -/
  | moveConstruct (this other : Nat)
  /-- Statement `x = std::move(y);` -/
  | moveAssign (this other : Nat)
  /-- Statement `x.reset();` -/
  | reset (this : Nat)
  /-- Statement `p = x.release();` -/
  | release (this : Nat)
  /-- the lifetime of `x` ends -/
  | destroy (this : Nat)
  deriving DecidableEq

/-- The program state together with the raw pointers that `release()` has
handed to the caller. -/
structure UTrace (T : Type) where
  st : UState T
  released : List Addr
  deriving DecidableEq

/-- The trace before anything happens. -/
def UTrace.init {T : Type} : UTrace T := ⟨World.init, []⟩

/-- One action.  `constructReleased` is only taken with a pointer found in
`released`.  With `once = true` a released pointer leaves `released` when a
constructor is given it; with `once = false` it stays there and may be given to
a constructor again. -/
def UniquePtr.step {T : Type} (once : Bool) (w : UTrace T) :
    UOp T → Except Fault (UTrace T)
  | .constructFresh this a v =>
    match w.st.alloc a (.val v) with
    | .error e => .error e
    | .ok s1 =>
      match UniquePtr.ctor s1 this (some a) with
      | .error e => .error e
      | .ok s2 => .ok { w with st := s2 }
  | .constructNull this =>
    match UniquePtr.ctor w.st this none with
    | .error e => .error e
    | .ok s1 => .ok { w with st := s1 }
  | .constructReleased this a =>
    if a ∈ w.released then
      match UniquePtr.ctor w.st this (some a) with
      | .error e => .error e
      | .ok s1 =>
        .ok { st := s1,
              released := if once then w.released.filter (fun b => b != a)
                          else w.released }
    else .error .badCall
  | .moveConstruct this other =>
    match UniquePtr.moveCtor w.st this other with
    | .error e => .error e
    | .ok s1 => .ok { w with st := s1 }
  | .moveAssign this other =>
    match UniquePtr.moveAssign w.st this other with
    | .error e => .error e
    | .ok s1 => .ok { w with st := s1 }
  | .reset this =>
    match UniquePtr.reset w.st this with
    | .error e => .error e
    | .ok s1 => .ok { w with st := s1 }
  | .release this =>
    match UniquePtr.release w.st this with
    | .error e => .error e
    | .ok (none, s1) => .ok { w with st := s1 }
    | .ok (some p, s1) => .ok { st := s1, released := p :: w.released }
  | .destroy this =>
    match UniquePtr.dtor w.st this with
    | .error e => .error e
    | .ok s1 => .ok { w with st := s1 }

/-- A sequence of actions, stopped by the first fault. -/
def UniquePtr.run {T : Type} (once : Bool) (w : UTrace T) :
    List (UOp T) → Except Fault (UTrace T)
  | [] => .ok w
  | op :: ops =>
    match UniquePtr.step once w op with
    | .error e => .error e
    | .ok w1 => UniquePtr.run once w1 ops

/-! ## Pointees that own smart pointers -/

/-- Run the destructors of the listed member objects, first to last. -/
def World.destroyAll {O T : Type}
    (destroy : World O T → Nat → Except Fault (World O T)) (w : World O T) :
    List Nat → Except Fault (World O T)
  | [] => .ok w
  | m :: ms =>
    match destroy w m with
    | .error e => .error e
    | .ok w1 => World.destroyAll destroy w1 ms

/-- Statement `delete p` for `p : T*` in general: `~T()` destroys the
smart-pointer members of the pointee, whose places are `members v` in their
order of destruction, each with `destroy`; then the storage is given back and
the free is logged.  Deleting `nullptr` does nothing. -/
def World.deleteOwning {O T : Type} (members : T → List Nat)
    (destroy : World O T → Nat → Except Fault (World O T))
    (w : World O T) (p : Option Addr) : Except Fault (World O T) :=
  match p with
  | none => .ok w
  | some a =>
    match lookup a w.cells with
    | some (.val v) =>
      match World.destroyAll destroy w (members v) with
      | .error e => .error e
      | .ok w1 =>
        match lookup a w1.cells with
        | some (.val _) =>
          .ok { w1 with cells := remove a w1.cells, freed := w1.freed ++ [a] }
        | _ => .error .invalidFree
    | _ => .error .invalidFree

/-- Member `void reset()` of `UniquePtr<T>` for a `T` with `UniquePtr` members:
the destructor of a member is `reset()` followed by the end of the member.  The
first argument bounds the depth of the cascade. -/
def Owning.UniquePtr.reset {T : Type} (members : T → List Nat) :
    Nat → UState T → Nat → Except Fault (UState T)
  | 0, _, _ => .error .outOfFuel
  | fuel + 1, s, this =>
    match lookup this s.objs with
    | none => .error .badObject
    | some o =>
      match o.pointer with
      | some p =>
        match World.deleteOwning members
            (fun w m =>
              match Owning.UniquePtr.reset members fuel w m with
              | .error e => .error e
              | .ok w1 => .ok { w1 with objs := remove m w1.objs })
            s (some p) with
        | .error e => .error e
        | .ok s1 =>
          match lookup this s1.objs with
          | none => .error .badObject
          | some _ => .ok { s1 with objs := update this ⟨none⟩ s1.objs }
      | none => .ok { s with objs := update this ⟨none⟩ s.objs }

/-- Destructor `~UniquePtr() { reset(); }` for a `T` with `UniquePtr` members. -/
def Owning.UniquePtr.dtor {T : Type} (members : T → List Nat) (fuel : Nat)
    (s : UState T) (this : Nat) : Except Fault (UState T) :=
  match Owning.UniquePtr.reset members fuel s this with
  | .error e => .error e
  | .ok s1 => .ok { s1 with objs := remove this s1.objs }

/-- Move assignment `UniquePtr& operator=(UniquePtr&& other)` for a `T` with
`UniquePtr` members. -/
def Owning.UniquePtr.moveAssign {T : Type} (members : T → List Nat) (fuel : Nat)
    (s : UState T) (this other : Nat) : Except Fault (UState T) :=
  match lookup this s.objs, lookup other s.objs with
  | some _, some _ =>
    if this ≠ other then
      match Owning.UniquePtr.reset members fuel s this with
      | .error e => .error e
      | .ok s1 =>
        match lookup other s1.objs with
        | none => .error .badObject
        | some o =>
          .ok { s1 with objs := update other ⟨none⟩ (update this ⟨o.pointer⟩ s1.objs) }
    else .ok s
  | _, _ => .error .badObject

/-- Private member `void decrementRefCount()` of `SharedPtr<T>` for a `T` with
`SharedPtr` members: the destructor of a member is `decrementRefCount()`
followed by the end of the member.  The first argument bounds the depth of the
cascade. -/
def Owning.SharedPtr.decrementRefCount {T : Type} (members : T → List Nat) :
    Nat → SState T → Nat → Except Fault (SState T)
  | 0, _, _ => .error .outOfFuel
  | fuel + 1, s, this =>
    match lookup this s.objs with
    | none => .error .badObject
    | some o =>
      match o.refCount with
      | none => .ok s
      | some c =>
        match lookup c s.cells with
        | some (.cnt n) =>
          let n' := (n + (SIZE_MOD - 1)) % SIZE_MOD
          let s1 : SState T := { s with cells := update c (.cnt n') s.cells }
          if n' = 0 then
            match World.deleteOwning members
                (fun w m =>
                  match Owning.SharedPtr.decrementRefCount members fuel w m with
                  | .error e => .error e
                  | .ok w1 => .ok { w1 with objs := remove m w1.objs })
                s1 o.pointer with
            | .error e => .error e
            | .ok s2 => s2.deleteCnt c
          else .ok s1
        | _ => .error .invalidAccess

/-- Destructor `~SharedPtr() { decrementRefCount(); }` for a `T` with
`SharedPtr` members. -/
def Owning.SharedPtr.dtor {T : Type} (members : T → List Nat) (fuel : Nat)
    (s : SState T) (this : Nat) : Except Fault (SState T) :=
  match Owning.SharedPtr.decrementRefCount members fuel s this with
  | .error e => .error e
  | .ok s1 => .ok { s1 with objs := remove this s1.objs }

/-- Copy assignment `SharedPtr& operator=(const SharedPtr& other)` for a `T`
with `SharedPtr` members: `other` is read, and `this` written, after
`decrementRefCount()` has run. -/
def Owning.SharedPtr.copyAssign {T : Type} (members : T → List Nat) (fuel : Nat)
    (s : SState T) (this other : Nat) : Except Fault (SState T) :=
  match lookup this s.objs, lookup other s.objs with
  | some _, some _ =>
    if this ≠ other then
      match Owning.SharedPtr.decrementRefCount members fuel s this with
      | .error e => .error e
      | .ok s1 =>
        match lookup other s1.objs with
        | none => .error .badObject
        | some o =>
          SharedPtr.incrementRefCount
            { s1 with objs := update this ⟨o.pointer, o.refCount⟩ s1.objs } this
    else .ok s
  | _, _ => .error .badObject

/-- Assignment `SharedPtr& operator=(std::nullptr_t)` for a `T` with
`SharedPtr` members. -/
def Owning.SharedPtr.assignNull {T : Type} (members : T → List Nat) (fuel : Nat)
    (s : SState T) (this : Nat) : Except Fault (SState T) :=
  match Owning.SharedPtr.decrementRefCount members fuel s this with
  | .error e => .error e
  | .ok s1 =>
    match lookup this s1.objs with
    | none => .error .badObject
    | some _ => .ok { s1 with objs := update this ⟨none, none⟩ s1.objs }

/-- A pointee with one smart-pointer member, as in
`struct Node { SharedPtr<Node> next; };` or
`struct Node { UniquePtr<Node> next; };`: the value records the place of the
member object. -/
structure Node where
  next : Nat
  deriving DecidableEq

/-- The smart-pointer members of a `Node`. -/
def Node.members (v : Node) : List Nat := [v.next]

/-- The program
`SharedPtr<Node> a(new Node); SharedPtr<Node> t(new Node); a->next = t; t = nullptr;`
with `struct Node { SharedPtr<Node> next; };`, run from the empty state.
Object 1 is `a`, object 10 is `a->next`, object 2 is `t`, object 11 is the
member of the second node; the nodes are at 100 and 101, the counters of `a`
and `t` at 200 and 201, those made by the default constructors of the two
members at 210 and 211. -/
def Owning.SharedPtr.listOfTwo : Except Fault (SState Node) := do
  let s ← World.alloc World.init 100 (.val ⟨10⟩)
  let s ← SharedPtr.ctor s 10 none 210
  let s ← SharedPtr.ctor s 1 (some 100) 200
  let s ← World.alloc s 101 (.val ⟨11⟩)
  let s ← SharedPtr.ctor s 11 none 211
  let s ← SharedPtr.ctor s 2 (some 101) 201
  let s ← Owning.SharedPtr.copyAssign Node.members 8 s 10 2
  Owning.SharedPtr.assignNull Node.members 8 s 2

/-- The program
`UniquePtr<Node> a(new Node); UniquePtr<Node> t(new Node); a->next = std::move(t);`
with `struct Node { UniquePtr<Node> next; };`, run from the empty state.
Object 1 is `a`, object 10 is `a->next`, object 2 is `t`, object 11 is the
member of the second node; the nodes are at 100 and 101. -/
def Owning.UniquePtr.listOfTwo : Except Fault (UState Node) := do
  let s ← World.alloc World.init 100 (.val ⟨10⟩)
  let s ← UniquePtr.ctor s 10 none
  let s ← UniquePtr.ctor s 1 (some 100)
  let s ← World.alloc s 101 (.val ⟨11⟩)
  let s ← UniquePtr.ctor s 11 none
  let s ← UniquePtr.ctor s 2 (some 101)
  Owning.UniquePtr.moveAssign Node.members 8 s 10 2

/-- The objects of `s` whose `pointer` member is the address `p`. -/
def UniquePtr.holders {T : Type} (s : UState T) (p : Addr) : List Nat :=
  (s.objs.filter (fun e => decide (e.2.pointer = some p))).map Prod.fst

/-- Exclusive ownership on a trace: object places are distinct, every held
pointer is a live `T`, no two objects hold the same address, and the pointers
in the caller's hands are live and held by no object. -/
structure UniquePtr.Inv {T : Type} (w : UTrace T) : Prop where
  keys : (w.st.objs.map Prod.fst).Nodup
  live : ∀ i p, lookup i w.st.objs = some ⟨some p⟩ →
    ∃ v, lookup p w.st.cells = some (.val v)
  uniq : ∀ i j p, lookup i w.st.objs = some ⟨some p⟩ →
    lookup j w.st.objs = some ⟨some p⟩ → i = j
  relLive : ∀ p, p ∈ w.released → ∃ v, lookup p w.st.cells = some (.val v)
  relFree : ∀ p, p ∈ w.released → ∀ i, lookup i w.st.objs ≠ some ⟨some p⟩

/-- Number of live objects whose `refCount` member is the address `c`. -/
def SharedPtr.sharers {T : Type} (s : SState T) (c : Addr) : Nat :=
  s.objs.countP (fun e => decide (e.2.refCount = some c))

/-- Every member of every live object refers to a live cell of its type. -/
def SharedPtr.NoDangling {T : Type} (s : SState T) : Prop :=
  ∀ i o, lookup i s.objs = some o →
    (∀ p, o.pointer = some p → ∃ v, lookup p s.cells = some (.val v)) ∧
    (∀ c, o.refCount = some c → ∃ n, lookup c s.cells = some (.cnt n))

/-- Some live object has the address `a` in one of its members. -/
def SharedPtr.Referenced {T : Type} (s : SState T) (a : Addr) : Prop :=
  ∃ i o, lookup i s.objs = some o ∧ (o.pointer = some a ∨ o.refCount = some a)

/-- Shared ownership in a state: object places are distinct and fewer than
`SIZE_MOD`; a counter that an object refers to is live and holds the number of
objects referring to it; a held pointer is a live `T` and comes with a counter;
objects agree on the pointer exactly when they agree on the counter. -/
structure SharedPtr.Inv {T : Type} (s : SState T) : Prop where
  keys : (s.objs.map Prod.fst).Nodup
  room : s.objs.length < SIZE_MOD
  count : ∀ i ptr c, lookup i s.objs = some ⟨ptr, some c⟩ →
    lookup c s.cells = some (.cnt (SharedPtr.sharers s c))
  live : ∀ i p rc, lookup i s.objs = some ⟨some p, rc⟩ →
    (∃ v, lookup p s.cells = some (.val v)) ∧ rc ≠ none
  samePtr : ∀ i j p q c, lookup i s.objs = some ⟨p, some c⟩ →
    lookup j s.objs = some ⟨q, some c⟩ → p = q
  sameCnt : ∀ i j p c d, lookup i s.objs = some ⟨some p, c⟩ →
    lookup j s.objs = some ⟨some p, d⟩ → c = d

/-- What the transition from `s` to `s'` by an action on `this` has freed: the
free log grows by `new`; `new` is empty unless the counter of `this` held 1 in
`s`, and is then the pointer of `this` (when not null) followed by that
counter; the addresses in `new` are off the heap in `s'`, and no other address
left the heap. -/
def SharedPtr.FreedBy {T : Type} (s s' : SState T) (this : Nat) : Prop :=
  ∃ new, s'.freed = s.freed ++ new ∧
    (new ≠ [] → ∃ ptr c, lookup this s.objs = some ⟨ptr, some c⟩ ∧
      lookup c s.cells = some (.cnt 1) ∧ new = ptr.toList ++ [c]) ∧
    (∀ a, a ∈ new → lookup a s'.cells = none) ∧
    (∀ a, a ∉ new → lookup a s.cells ≠ none → lookup a s'.cells ≠ none)

/-! ## Store lemmas -/

section StoreLemmas

variable {β : Type}

@[simp] theorem lookup_nil (k : Nat) : lookup k ([] : List (Nat × β)) = none := rfl

@[simp] theorem lookup_cons (k k' : Nat) (v : β) (l : List (Nat × β)) :
    lookup k ((k', v) :: l) = if k' = k then some v else lookup k l := rfl

theorem lookup_update (a k : Nat) (v : β) (l : List (Nat × β)) :
    lookup a (update k v l)
      = if a = k then (lookup k l).map (fun _ => v) else lookup a l := by
  induction l with
  | nil => simp [update]
  | cons e l ih =>
    obtain ⟨k', v'⟩ := e
    by_cases h : k' = k
    · subst h
      by_cases h2 : a = k'
      · subst h2; simp [update]
      · have h3 : ¬ k' = a := fun h => h2 h.symm
        simp [update, h2, h3]
    · by_cases h2 : a = k
      · subst h2
        simp [update, h, ih]
      · simp [update, h, ih, h2]

theorem lookup_update_self (k : Nat) (v w : β) (l : List (Nat × β))
    (h : lookup k l = some w) : lookup k (update k v l) = some v := by
  simp [lookup_update, h]

theorem lookup_update_ne (a k : Nat) (v : β) (l : List (Nat × β)) (h : a ≠ k) :
    lookup a (update k v l) = lookup a l := by
  simp [lookup_update, h]

theorem lookup_remove (a k : Nat) (l : List (Nat × β)) :
    lookup a (remove k l) = if a = k then none else lookup a l := by
  induction l with
  | nil => simp [remove]
  | cons e l ih =>
    obtain ⟨k', v'⟩ := e
    by_cases h : k' = k
    · subst h
      by_cases h2 : a = k'
      · subst h2; simp [remove, ih]
      · have h3 : ¬ k' = a := fun h => h2 h.symm
        simp [remove, ih, h2, h3]
    · by_cases h2 : a = k
      · subst h2
        simp [remove, h, ih]
      · simp [remove, h, ih, h2]

theorem update_eq_self (k : Nat) (v : β) (l : List (Nat × β))
    (h : lookup k l = some v) : update k v l = l := by
  induction l with
  | nil => simp at h
  | cons e l ih =>
    obtain ⟨k', v'⟩ := e
    by_cases h1 : k' = k
    · subst h1
      simp at h
      simp [update, h]
    · simp [h1] at h
      simp [update, h1, ih h]

theorem update_update (k : Nat) (v w : β) (l : List (Nat × β)) :
    update k v (update k w l) = update k v l := by
  induction l with
  | nil => simp [update]
  | cons e l ih =>
    obtain ⟨k', v'⟩ := e
    by_cases h1 : k' = k
    · simp [update, h1]
    · simp [update, h1, ih]

theorem lookup_eq_none_iff (k : Nat) (l : List (Nat × β)) :
    lookup k l = none ↔ k ∉ l.map Prod.fst := by
  induction l with
  | nil => simp
  | cons e l ih =>
    obtain ⟨k', v'⟩ := e
    by_cases h : k' = k
    · simp [h]
    · have h2 : ¬ k = k' := fun h3 => h h3.symm
      simp [h, h2, ih]

theorem keys_update (k : Nat) (v : β) (l : List (Nat × β)) :
    (update k v l).map Prod.fst = l.map Prod.fst := by
  induction l with
  | nil => simp [update]
  | cons e l ih =>
    obtain ⟨k', v'⟩ := e
    by_cases h : k' = k
    · simp [update, h]
    · simp [update, h, ih]

theorem keys_remove (k : Nat) (l : List (Nat × β)) :
    (remove k l).map Prod.fst = (l.map Prod.fst).filter (fun a => decide (a ≠ k)) := by
  induction l with
  | nil => simp [remove]
  | cons e l ih =>
    obtain ⟨k', v'⟩ := e
    by_cases h : k' = k
    · simp [remove, h, ih]
    · simp [remove, h, ih]

theorem keys_remove_nodup (k : Nat) (l : List (Nat × β))
    (h : (l.map Prod.fst).Nodup) : ((remove k l).map Prod.fst).Nodup := by
  rw [keys_remove]
  exact h.filter _

theorem keys_cons_nodup (k : Nat) (v : β) (l : List (Nat × β))
    (h : (l.map Prod.fst).Nodup) (hk : lookup k l = none) :
    (((k, v) :: l).map Prod.fst).Nodup := by
  rw [lookup_eq_none_iff] at hk
  simpa using ⟨by simpa using hk, h⟩

theorem lookup_of_mem (l : List (Nat × β)) (h : (l.map Prod.fst).Nodup)
    (k : Nat) (v : β) (hm : (k, v) ∈ l) : lookup k l = some v := by
  induction l with
  | nil => simp at hm
  | cons e l ih =>
    obtain ⟨k', v'⟩ := e
    simp only [List.map_cons, List.nodup_cons] at h
    rcases List.mem_cons.1 hm with heq | hmem
    · cases heq
      simp
    · have hk : k ∈ l.map Prod.fst := List.mem_map.2 ⟨(k, v), hmem, rfl⟩
      have hne : ¬ k' = k := fun h3 => h.1 (h3 ▸ hk)
      simp [hne, ih h.2 hmem]

theorem mem_of_lookup (l : List (Nat × β)) (k : Nat) (v : β)
    (h : lookup k l = some v) : (k, v) ∈ l := by
  induction l with
  | nil => simp at h
  | cons e l ih =>
    obtain ⟨k', v'⟩ := e
    by_cases h1 : k' = k
    · simp [h1] at h
      simp [h1, h]
    · simp [h1] at h
      exact List.mem_cons_of_mem _ (ih h)

theorem remove_eq_self (k : Nat) (l : List (Nat × β))
    (h : lookup k l = none) : remove k l = l := by
  induction l with
  | nil => simp [remove]
  | cons e l ih =>
    obtain ⟨k', v'⟩ := e
    by_cases h1 : k' = k
    · simp [h1] at h
    · simp [h1] at h
      simp [remove, h1, ih h]

theorem remove_update (k : Nat) (v : β) (l : List (Nat × β)) :
    remove k (update k v l) = remove k l := by
  induction l with
  | nil => simp [update]
  | cons e l ih =>
    obtain ⟨k', v'⟩ := e
    by_cases h1 : k' = k
    · simp [update, remove, h1]
    · simp [update, remove, h1, ih]

theorem length_update (k : Nat) (v : β) (l : List (Nat × β)) :
    (update k v l).length = l.length := by
  have := congrArg List.length (keys_update k v l)
  simpa using this

theorem length_remove_le (k : Nat) (l : List (Nat × β)) :
    (remove k l).length ≤ l.length := by
  induction l with
  | nil => simp [remove]
  | cons e l ih =>
    obtain ⟨k', v'⟩ := e
    by_cases h1 : k' = k
    · simp [remove, h1]
      omega
    · simp [remove, h1]
      omega

theorem countP_update (P : Nat × β → Bool) (k : Nat) (v o : β) (l : List (Nat × β))
    (h : lookup k l = some o) :
    (update k v l).countP P + (if P (k, o) then 1 else 0)
      = l.countP P + (if P (k, v) then 1 else 0) := by
  induction l with
  | nil => simp at h
  | cons e l ih =>
    obtain ⟨k', v'⟩ := e
    by_cases h1 : k' = k
    · subst h1
      simp at h
      subst h
      simp only [update, if_true, List.countP_cons]
      omega
    · simp [h1] at h
      have := ih h
      simp only [update, h1, if_false, List.countP_cons]
      omega

theorem countP_remove (P : Nat × β → Bool) (k : Nat) (o : β) (l : List (Nat × β))
    (hk : (l.map Prod.fst).Nodup) (h : lookup k l = some o) :
    (remove k l).countP P + (if P (k, o) then 1 else 0) = l.countP P := by
  induction l with
  | nil => simp at h
  | cons e l ih =>
    obtain ⟨k', v'⟩ := e
    simp only [List.map_cons, List.nodup_cons] at hk
    by_cases h1 : k' = k
    · subst h1
      simp at h
      subst h
      have hnone : lookup k' l = none := (lookup_eq_none_iff k' l).2 hk.1
      simp only [remove, if_true, List.countP_cons, remove_eq_self _ _ hnone]
    · simp [h1] at h
      have := ih hk.2 h
      simp only [remove, h1, if_false, List.countP_cons]
      omega

theorem countP_pos_of_lookup (P : Nat × β → Bool) (k : Nat) (o : β) (l : List (Nat × β))
    (h : lookup k l = some o) (hP : P (k, o) = true) : 0 < l.countP P :=
  List.countP_pos_iff.2 ⟨(k, o), mem_of_lookup l k o h, hP⟩

theorem dec_mod (n : Nat) (h1 : 1 ≤ n) (h2 : n < SIZE_MOD) :
    (n + (SIZE_MOD - 1)) % SIZE_MOD = n - 1 := by
  simp only [SIZE_MOD] at *
  omega

theorem inc_mod (n : Nat) (h : n + 1 < SIZE_MOD) : (n + 1) % SIZE_MOD = n + 1 :=
  Nat.mod_eq_of_lt h

end StoreLemmas

/-! ## `UniquePtr<T>`: single operations -/

section UniqueOps

variable {T : Type}

theorem UniquePtr.reset_holding (s : UState T) (this : Nat) (p : Addr) (v : T)
    (hobj : lookup this s.objs = some ⟨some p⟩)
    (hv : lookup p s.cells = some (.val v)) :
    UniquePtr.reset s this
      = .ok ⟨update this ⟨none⟩ s.objs, remove p s.cells, s.freed ++ [p]⟩ := by
  simp [UniquePtr.reset, hobj, World.deleteVal, hv]

theorem UniquePtr.reset_empty (s : UState T) (this : Nat)
    (hobj : lookup this s.objs = some ⟨none⟩) :
    UniquePtr.reset s this = .ok s := by
  simp [UniquePtr.reset, hobj, update_eq_self _ _ _ hobj]

theorem UniquePtr.dtor_holding (s : UState T) (this : Nat) (p : Addr) (v : T)
    (hobj : lookup this s.objs = some ⟨some p⟩)
    (hv : lookup p s.cells = some (.val v)) :
    UniquePtr.dtor s this
      = .ok ⟨remove this (update this ⟨none⟩ s.objs), remove p s.cells, s.freed ++ [p]⟩ := by
  simp [UniquePtr.dtor, UniquePtr.reset_holding s this p v hobj hv]

theorem UniquePtr.dtor_empty (s : UState T) (this : Nat)
    (hobj : lookup this s.objs = some ⟨none⟩) :
    UniquePtr.dtor s this = .ok { s with objs := remove this s.objs } := by
  simp [UniquePtr.dtor, UniquePtr.reset_empty s this hobj]

/-- For a pointee without smart-pointer members: destroying a `UniquePtr` that holds the allocation `p` succeeds, adds
exactly one free event, for `p`, takes `p` off the heap and touches no other
allocation; destroying an empty `UniquePtr` frees nothing. -/
theorem UniquePtr.dtor_memberless (s : UState T) (this : Nat) (o : UniquePtr)
    (hobj : lookup this s.objs = some o) :
    (∀ p v, o.pointer = some p → lookup p s.cells = some (.val v) →
      ∃ s', UniquePtr.dtor s this = .ok s' ∧ s'.freed = s.freed ++ [p] ∧
        lookup p s'.cells = none ∧
        (∀ q, q ≠ p → lookup q s'.cells = lookup q s.cells) ∧
        lookup this s'.objs = none) ∧
    (o.pointer = none →
      ∃ s', UniquePtr.dtor s this = .ok s' ∧ s'.freed = s.freed ∧
        s'.cells = s.cells ∧ lookup this s'.objs = none) := by
  obtain ⟨ptr⟩ := o
  constructor
  · intro p v hp hv
    simp only at hp
    subst hp
    refine ⟨_, UniquePtr.dtor_holding s this p v hobj hv, rfl, ?_, ?_, ?_⟩
    · simp [lookup_remove]
    · intro q hq
      simp [lookup_remove, hq]
    · simp [lookup_remove]
  · intro hp
    simp only at hp
    subst hp
    refine ⟨_, UniquePtr.dtor_empty s this hobj, rfl, rfl, ?_⟩
    simp [lookup_remove]

/-- C5: with `a` constructed from `ptr` and `b` move-constructed from `a`,
`a.get()` is empty, `b.get()` is `ptr`, the heap and the free log are as
before, and `*b` is the value stored at `ptr` when `ptr` is not null. -/
theorem UniquePtr.moveCtor_transfers (s : UState T) (a b : Nat) (ptr : Option Addr)
    (ha : lookup a s.objs = none) (hb : lookup b s.objs = none) (hab : a ≠ b) :
    ∃ s1 s2, UniquePtr.ctor s a ptr = .ok s1 ∧ UniquePtr.moveCtor s1 b a = .ok s2 ∧
      UniquePtr.get s2 a = .ok none ∧ UniquePtr.get s2 b = .ok ptr ∧
      s2.freed = s.freed ∧ s2.cells = s.cells ∧
      (∀ p v, ptr = some p → lookup p s.cells = some (.val v) →
        UniquePtr.deref s2 b = .ok v) := by
  have hba : b ≠ a := fun h => hab h.symm
  refine ⟨{ s with objs := (a, ⟨ptr⟩) :: s.objs },
    { s with objs := update a ⟨none⟩ ((b, ⟨ptr⟩) :: (a, ⟨ptr⟩) :: s.objs) },
    ?_, ?_, ?_, ?_, rfl, rfl, ?_⟩
  · simp [UniquePtr.ctor, ha]
  · simp [UniquePtr.moveCtor, hab, hb]
  · simp [UniquePtr.get, lookup_update]
  · simp [UniquePtr.get, lookup_update, hba]
  · intro p v hp hv
    subst hp
    simp [UniquePtr.deref, lookup_update, hba, hv]

theorem UniquePtr.moveCtor_transfers_witness :
    ∃ s1 s2, UniquePtr.ctor (T := Int) ⟨[], [(100, .val 42)], []⟩ 1 (some 100) = .ok s1 ∧
      UniquePtr.moveCtor s1 2 1 = .ok s2 ∧
      UniquePtr.get s2 1 = .ok none ∧ UniquePtr.get s2 2 = .ok (some 100) ∧
      s2.freed = [] ∧ s2.cells = [(100, .val 42)] ∧
      (∀ p v, some 100 = some p → lookup p [(100, Cell.val (42 : Int))] = some (.val v) →
        UniquePtr.deref s2 2 = .ok v) :=
  UniquePtr.moveCtor_transfers (T := Int) ⟨[], [(100, .val 42)], []⟩ 1 2 (some 100)
    rfl rfl (by decide)

theorem UniquePtr.moveAssign_holding (s : UState T) (dst src : Nat) (q : Addr) (v : T)
    (o : UniquePtr) (hne : dst ≠ src)
    (hd : lookup dst s.objs = some ⟨some q⟩) (hs : lookup src s.objs = some o)
    (hv : lookup q s.cells = some (.val v)) :
    UniquePtr.moveAssign s dst src
      = .ok ⟨update src ⟨none⟩ (update dst ⟨o.pointer⟩ s.objs),
             remove q s.cells, s.freed ++ [q]⟩ := by
  have hne2 : src ≠ dst := fun h => hne h.symm
  simp [UniquePtr.moveAssign, hd, hs, hne, UniquePtr.reset_holding s dst q v hd hv,
    lookup_update, hne2, update_update]

theorem UniquePtr.moveAssign_empty (s : UState T) (dst src : Nat)
    (o : UniquePtr) (hne : dst ≠ src)
    (hd : lookup dst s.objs = some ⟨none⟩) (hs : lookup src s.objs = some o) :
    UniquePtr.moveAssign s dst src
      = .ok { s with objs := update src ⟨none⟩ (update dst ⟨o.pointer⟩ s.objs) } := by
  simp [UniquePtr.moveAssign, hd, hs, hne, UniquePtr.reset_empty s dst hd]

/-- C7: self move assignment `a = std::move(a)` returns the state it was given:
`a.get()` is the pointer it was, `*a` reads as before, and the heap and the
free log are untouched. -/
theorem UniquePtr.moveAssign_self (s : UState T) (a : Nat) (o : UniquePtr)
    (ha : lookup a s.objs = some o) :
    UniquePtr.moveAssign s a a = .ok s ∧
    ∀ s', UniquePtr.moveAssign s a a = .ok s' →
      UniquePtr.get s' a = .ok o.pointer ∧ UniquePtr.get s' a = UniquePtr.get s a ∧
      UniquePtr.deref s' a = UniquePtr.deref s a ∧
      s'.cells = s.cells ∧ s'.freed = s.freed := by
  have h : UniquePtr.moveAssign s a a = .ok s := by
    simp [UniquePtr.moveAssign, ha]
  refine ⟨h, ?_⟩
  intro s' hs'
  rw [h] at hs'
  cases hs'
  simp [UniquePtr.get, ha]

theorem UniquePtr.moveAssign_self_witness :
    UniquePtr.moveAssign (T := Int) ⟨[(1, ⟨some 100⟩)], [(100, .val 42)], []⟩ 1 1
      = .ok ⟨[(1, ⟨some 100⟩)], [(100, .val 42)], []⟩ :=
  (UniquePtr.moveAssign_self (T := Int) ⟨[(1, ⟨some 100⟩)], [(100, .val 42)], []⟩ 1
    ⟨some 100⟩ rfl).1

/-- C9: `release()` returns exactly the pointer held (null when the object is
empty), leaves `get()` empty and frees nothing; a `reset()` or a destruction
of the object that follows frees nothing either, so the heap stays as it was. -/
theorem UniquePtr.release_relinquishes (s : UState T) (this : Nat) (o : UniquePtr)
    (hobj : lookup this s.objs = some o) :
    ∃ s1, UniquePtr.release s this = .ok (o.pointer, s1) ∧
      UniquePtr.get s1 this = .ok none ∧ s1.freed = s.freed ∧ s1.cells = s.cells ∧
      (∃ s2, UniquePtr.reset s1 this = .ok s2 ∧ s2.freed = s.freed ∧ s2.cells = s.cells) ∧
      (∃ s3, UniquePtr.dtor s1 this = .ok s3 ∧ s3.freed = s.freed ∧ s3.cells = s.cells) := by
  have h1 : lookup this (update this (⟨none⟩ : UniquePtr) s.objs) = some ⟨none⟩ := by
    simp [lookup_update, hobj]
  refine ⟨{ s with objs := update this ⟨none⟩ s.objs }, ?_, ?_, rfl, rfl, ?_, ?_⟩
  · simp [UniquePtr.release, hobj]
  · simp [UniquePtr.get, h1]
  · exact ⟨_, UniquePtr.reset_empty _ this h1, rfl, rfl⟩
  · exact ⟨_, UniquePtr.dtor_empty _ this h1, rfl, rfl⟩

theorem UniquePtr.release_relinquishes_witness :
    ∃ s1, UniquePtr.release (T := Int) ⟨[(1, ⟨some 100⟩)], [(100, .val 42)], []⟩ 1
        = .ok (some 100, s1) ∧
      UniquePtr.get s1 1 = .ok none ∧ s1.freed = [] ∧ s1.cells = [(100, .val 42)] ∧
      (∃ s2, UniquePtr.reset s1 1 = .ok s2 ∧ s2.freed = [] ∧ s2.cells = [(100, .val 42)]) ∧
      (∃ s3, UniquePtr.dtor s1 1 = .ok s3 ∧ s3.freed = [] ∧ s3.cells = [(100, .val 42)]) :=
  UniquePtr.release_relinquishes (T := Int) ⟨[(1, ⟨some 100⟩)], [(100, .val 42)], []⟩ 1
    ⟨some 100⟩ rfl

end UniqueOps

/-! ## `SharedPtr<T>`: single operations -/

section SharedOps

variable {T : Type}

/-- C10: constructing `SharedPtr a(ptr)` for any `ptr`, null included, with
the counter allocated at an address `c` that was not in use, succeeds; the
new object refers to the counter at `c`, that counter holds 1,
`a.use_count()` is 1 and `a.get()` is `ptr`; nothing is freed and no other
allocation changes. -/
theorem SharedPtr.ctor_use_count_one (s : SState T) (this : Nat) (ptr : Option Addr)
    (c : Addr) (hobj : lookup this s.objs = none) (hc : lookup c s.cells = none) :
    ∃ s', SharedPtr.ctor s this ptr c = .ok s' ∧
      lookup this s'.objs = some ⟨ptr, some c⟩ ∧
      lookup c s'.cells = some (.cnt 1) ∧
      SharedPtr.use_count s' this = .ok 1 ∧ SharedPtr.get s' this = .ok ptr ∧
      s'.freed = s.freed ∧ (∀ a, a ≠ c → lookup a s'.cells = lookup a s.cells) := by
  refine ⟨⟨(this, ⟨ptr, some c⟩) :: s.objs, (c, .cnt 1) :: s.cells, s.freed⟩,
    ?_, ?_, ?_, ?_, ?_, rfl, ?_⟩
  · simp [SharedPtr.ctor, hobj, World.alloc, hc]
  · simp
  · simp
  · simp [SharedPtr.use_count]
  · simp [SharedPtr.get]
  · intro a ha
    have : ¬ c = a := fun h => ha h.symm
    simp [this]

theorem SharedPtr.ctor_use_count_one_witness :
    ∃ s', SharedPtr.ctor (T := Int) ⟨[], [(100, .val 42)], []⟩ 1 (some 100) 200 = .ok s' ∧
      lookup 1 s'.objs = some ⟨some 100, some 200⟩ ∧
      lookup 200 s'.cells = some (.cnt 1) ∧
      SharedPtr.use_count s' 1 = .ok 1 ∧ SharedPtr.get s' 1 = .ok (some 100) ∧
      s'.freed = [] ∧
      (∀ a, a ≠ 200 → lookup a s'.cells = lookup a [(100, Cell.val (42 : Int))]) :=
  SharedPtr.ctor_use_count_one (T := Int) ⟨[], [(100, .val 42)], []⟩ 1 (some 100) 200
    rfl rfl

end SharedOps

/-! ## `UniquePtr<T>`: exclusive ownership along a trace -/

section UniqueTrace

variable {T : Type}

theorem UniquePtr.inv_init : UniquePtr.Inv (UTrace.init : UTrace T) := by
  constructor <;> simp [UTrace.init, World.init]

theorem UniquePtr.inv_constructFresh (w : UTrace T) (h : UniquePtr.Inv w)
    (this : Nat) (a : Addr) (v : T)
    (ha : lookup a w.st.cells = none) (ht : lookup this w.st.objs = none) :
    UniquePtr.Inv ⟨⟨(this, ⟨some a⟩) :: w.st.objs, (a, .val v) :: w.st.cells,
      w.st.freed⟩, w.released⟩ := by
  have hold : ∀ i, lookup i w.st.objs ≠ some ⟨some a⟩ := by
    intro i hi
    obtain ⟨v', hv'⟩ := h.live i a hi
    simp [ha] at hv'
  have hcell : ∀ p, (∃ v', lookup p w.st.cells = some (.val v')) →
      ∃ v', lookup p ((a, Cell.val v) :: w.st.cells) = some (.val v') := by
    intro p hp
    by_cases hap : a = p
    · simp [hap]
    · simpa [hap] using hp
  constructor
  · exact keys_cons_nodup _ _ _ h.keys ht
  · intro i p hi
    simp only [lookup_cons] at hi
    split_ifs at hi with hti
    · simp at hi
      subst hi
      simp
    · exact hcell p (h.live i p hi)
  · intro i j p hi hj
    simp only [lookup_cons] at hi hj
    split_ifs at hi hj with hti htj htj
    · omega
    · simp at hi
      subst hi
      exact absurd hj (hold j)
    · simp at hj
      subst hj
      exact absurd hi (hold i)
    · exact h.uniq i j p hi hj
  · intro p hp
    exact hcell p (h.relLive p hp)
  · intro p hp i hi
    simp only [lookup_cons] at hi
    split_ifs at hi with hti
    · simp at hi
      subst hi
      obtain ⟨v', hv'⟩ := h.relLive a hp
      simp [ha] at hv'
    · exact h.relFree p hp i hi

theorem UniquePtr.inv_constructNull (w : UTrace T) (h : UniquePtr.Inv w)
    (this : Nat) (ht : lookup this w.st.objs = none) :
    UniquePtr.Inv ⟨⟨(this, ⟨none⟩) :: w.st.objs, w.st.cells, w.st.freed⟩, w.released⟩ := by
  constructor
  · exact keys_cons_nodup _ _ _ h.keys ht
  · intro i p hi
    simp only [lookup_cons] at hi
    split_ifs at hi with hti
    · simp at hi
    · exact h.live i p hi
  · intro i j p hi hj
    simp only [lookup_cons] at hi hj
    split_ifs at hi hj with hti htj htj
    · omega
    · simp at hi
    · simp at hj
    · exact h.uniq i j p hi hj
  · exact h.relLive
  · intro p hp i hi
    simp only [lookup_cons] at hi
    split_ifs at hi with hti
    · simp at hi
    · exact h.relFree p hp i hi

theorem UniquePtr.inv_constructReleased (w : UTrace T) (h : UniquePtr.Inv w)
    (this : Nat) (a : Addr) (ha : a ∈ w.released) (ht : lookup this w.st.objs = none) :
    UniquePtr.Inv ⟨⟨(this, ⟨some a⟩) :: w.st.objs, w.st.cells, w.st.freed⟩,
      w.released.filter (fun b => b != a)⟩ := by
  constructor
  · exact keys_cons_nodup _ _ _ h.keys ht
  · intro i p hi
    simp only [lookup_cons] at hi
    split_ifs at hi with hti
    · simp at hi
      subst hi
      exact h.relLive a ha
    · exact h.live i p hi
  · intro i j p hi hj
    simp only [lookup_cons] at hi hj
    split_ifs at hi hj with hti htj htj
    · omega
    · simp at hi
      subst hi
      exact absurd hj (h.relFree a ha j)
    · simp at hj
      subst hj
      exact absurd hi (h.relFree a ha i)
    · exact h.uniq i j p hi hj
  · intro p hp
    exact h.relLive p (List.mem_of_mem_filter hp)
  · intro p hp i hi
    have hpa : p ≠ a := by
      have := (List.mem_filter.1 hp).2
      simpa using this
    simp only [lookup_cons] at hi
    split_ifs at hi with hti
    · simp at hi
      exact hpa hi.symm
    · exact h.relFree p (List.mem_of_mem_filter hp) i hi

theorem UniquePtr.inv_release (w : UTrace T) (h : UniquePtr.Inv w)
    (this : Nat) (p : Addr) (ht : lookup this w.st.objs = some ⟨some p⟩) :
    UniquePtr.Inv ⟨⟨update this ⟨none⟩ w.st.objs, w.st.cells, w.st.freed⟩,
      p :: w.released⟩ := by
  have hview : ∀ i, lookup i (update this (⟨none⟩ : UniquePtr) w.st.objs)
      = if i = this then some ⟨none⟩ else lookup i w.st.objs := by
    intro i
    rw [lookup_update]
    split_ifs <;> simp [ht]
  constructor
  · simpa [keys_update] using h.keys
  · intro i q hi
    simp only [hview] at hi
    split_ifs at hi with hti
    · simp at hi
    · exact h.live i q hi
  · intro i j q hi hj
    simp only [hview] at hi hj
    split_ifs at hi hj with hti htj htj
    · omega
    · simp at hi
    · simp at hj
    · exact h.uniq i j q hi hj
  · intro q hq
    rcases List.mem_cons.1 hq with rfl | hq
    · exact h.live this q ht
    · exact h.relLive q hq
  · intro q hq i hi
    simp only [hview] at hi
    split_ifs at hi with hti
    · simp at hi
    · rcases List.mem_cons.1 hq with rfl | hq
      · exact hti (h.uniq i this q hi ht)
      · exact h.relFree q hq i hi

theorem UniquePtr.inv_reset (w : UTrace T) (h : UniquePtr.Inv w)
    (this : Nat) (p : Addr) (ht : lookup this w.st.objs = some ⟨some p⟩) :
    UniquePtr.Inv ⟨⟨update this ⟨none⟩ w.st.objs, remove p w.st.cells,
      w.st.freed ++ [p]⟩, w.released⟩ := by
  have hview : ∀ i, lookup i (update this (⟨none⟩ : UniquePtr) w.st.objs)
      = if i = this then some ⟨none⟩ else lookup i w.st.objs := by
    intro i
    rw [lookup_update]
    split_ifs <;> simp [ht]
  constructor
  · simpa [keys_update] using h.keys
  · intro i q hi
    simp only [hview] at hi
    split_ifs at hi with hti
    · simp at hi
    · have hqp : q ≠ p := by
        rintro rfl
        exact hti (h.uniq i this q hi ht)
      simpa [lookup_remove, hqp] using h.live i q hi
  · intro i j q hi hj
    simp only [hview] at hi hj
    split_ifs at hi hj with hti htj htj
    · omega
    · simp at hi
    · simp at hj
    · exact h.uniq i j q hi hj
  · intro q hq
    have hqp : q ≠ p := by
      rintro rfl
      exact h.relFree q hq this ht
    simpa [lookup_remove, hqp] using h.relLive q hq
  · intro q hq i hi
    simp only [hview] at hi
    split_ifs at hi with hti
    · simp at hi
    · exact h.relFree q hq i hi

theorem UniquePtr.inv_remove (w : UTrace T) (h : UniquePtr.Inv w) (this : Nat) :
    UniquePtr.Inv ⟨⟨remove this w.st.objs, w.st.cells, w.st.freed⟩, w.released⟩ := by
  constructor
  · exact keys_remove_nodup _ _ h.keys
  · intro i q hi
    simp only [lookup_remove] at hi
    split_ifs at hi with hti
    exact h.live i q hi
  · intro i j q hi hj
    simp only [lookup_remove] at hi hj
    split_ifs at hi hj with hti htj
    exact h.uniq i j q hi hj
  · exact h.relLive
  · intro q hq i hi
    simp only [lookup_remove] at hi
    split_ifs at hi with hti
    exact h.relFree q hq i hi

theorem UniquePtr.inv_transfer (w : UTrace T) (h : UniquePtr.Inv w)
    (dst src : Nat) (o : UniquePtr) (hne : dst ≠ src)
    (hd : lookup dst w.st.objs = some ⟨none⟩) (hs : lookup src w.st.objs = some o) :
    UniquePtr.Inv ⟨⟨update src ⟨none⟩ (update dst o w.st.objs), w.st.cells,
      w.st.freed⟩, w.released⟩ := by
  have hne2 : src ≠ dst := fun h => hne h.symm
  have hview : ∀ i, lookup i (update src (⟨none⟩ : UniquePtr) (update dst o w.st.objs))
      = if i = src then some ⟨none⟩ else if i = dst then some o
        else lookup i w.st.objs := by
    intro i
    rw [lookup_update, lookup_update, lookup_update]
    split_ifs <;> simp_all
  constructor
  · simpa [keys_update] using h.keys
  · intro i q hi
    simp only [hview] at hi
    split_ifs at hi with h1 h2
    · simp at hi
    · simp at hi
      subst hi
      exact h.live src q hs
    · exact h.live i q hi
  · intro i j q hi hj
    simp only [hview] at hi hj
    split_ifs at hi hj with h1 h2 h3 h4 h5 h6 h7 h8
    all_goals first
      | omega
      | (simp at hi; done)
      | (simp at hj; done)
      | (simp at hi; subst hi; exact absurd (h.uniq j src q hj hs) (by omega))
      | (simp at hj; subst hj; exact absurd (h.uniq i src q hi hs) (by omega))
      | exact h.uniq i j q hi hj
  · exact h.relLive
  · intro q hq i hi
    simp only [hview] at hi
    split_ifs at hi with h1 h2
    · simp at hi
    · simp at hi
      subst hi
      exact h.relFree q hq src hs
    · exact h.relFree q hq i hi

theorem UniquePtr.step_inv (w w' : UTrace T) (op : UOp T) (h : UniquePtr.Inv w)
    (hs : UniquePtr.step true w op = .ok w') : UniquePtr.Inv w' := by
  cases op with
  | constructFresh this a v =>
    cases ha : lookup a w.st.cells with
    | some _ => simp [UniquePtr.step, World.alloc, ha] at hs
    | none =>
      cases ht : lookup this w.st.objs with
      | some _ => simp [UniquePtr.step, World.alloc, UniquePtr.ctor, ha, ht] at hs
      | none =>
        simp [UniquePtr.step, World.alloc, UniquePtr.ctor, ha, ht] at hs
        subst hs
        exact UniquePtr.inv_constructFresh w h this a v ha ht
  | constructNull this =>
    cases ht : lookup this w.st.objs with
    | some _ => simp [UniquePtr.step, UniquePtr.ctor, ht] at hs
    | none =>
      simp [UniquePtr.step, UniquePtr.ctor, ht] at hs
      subst hs
      exact UniquePtr.inv_constructNull w h this ht
  | constructReleased this a =>
    by_cases ha : a ∈ w.released
    · cases ht : lookup this w.st.objs with
      | some _ => simp [UniquePtr.step, UniquePtr.ctor, ha, ht] at hs
      | none =>
        simp [UniquePtr.step, UniquePtr.ctor, ha, ht] at hs
        subst hs
        have := UniquePtr.inv_constructReleased w h this a ha ht
        simpa using this
    · simp [UniquePtr.step, ha] at hs
  | moveConstruct this other =>
    cases ht : lookup this w.st.objs with
    | some _ => simp [UniquePtr.step, UniquePtr.moveCtor, ht] at hs
    | none =>
      cases ho : lookup other w.st.objs with
      | none => simp [UniquePtr.step, UniquePtr.moveCtor, ht, ho] at hs
      | some o =>
        simp [UniquePtr.step, UniquePtr.moveCtor, ht, ho] at hs
        subst hs
        have hne : this ≠ other := by
          rintro rfl
          simp [ht] at ho
        have h1 := UniquePtr.inv_constructNull w h this ht
        have h2 := UniquePtr.inv_transfer _ h1 this other o hne (by simp)
          (by simp [hne, ho])
        simpa [update] using h2
  | moveAssign this other =>
    cases ht : lookup this w.st.objs with
    | none => simp [UniquePtr.step, UniquePtr.moveAssign, ht] at hs
    | some d =>
      cases ho : lookup other w.st.objs with
      | none => simp [UniquePtr.step, UniquePtr.moveAssign, ht, ho] at hs
      | some o =>
        by_cases hne : this = other
        · simp [UniquePtr.step, UniquePtr.moveAssign, ht, ho, hne] at hs
          subst hs
          exact h
        · obtain ⟨dp⟩ := d
          cases dp with
          | none =>
            simp [UniquePtr.step, UniquePtr.moveAssign_empty w.st this other o hne ht ho] at hs
            subst hs
            exact UniquePtr.inv_transfer w h this other o hne ht ho
          | some q =>
            obtain ⟨v, hv⟩ := h.live this q ht
            simp [UniquePtr.step,
              UniquePtr.moveAssign_holding w.st this other q v o hne ht ho hv] at hs
            subst hs
            have h1 := UniquePtr.inv_reset w h this q ht
            have hne2 : other ≠ this := fun h => hne h.symm
            have h2 := UniquePtr.inv_transfer _ h1 this other o hne
              (by simp [lookup_update, ht]) (by simp [lookup_update, hne2, ho])
            simpa [update_update] using h2
  | reset this =>
    cases ht : lookup this w.st.objs with
    | none => simp [UniquePtr.step, UniquePtr.reset, ht] at hs
    | some d =>
      obtain ⟨dp⟩ := d
      cases dp with
      | none =>
        simp [UniquePtr.step, UniquePtr.reset_empty w.st this ht] at hs
        subst hs
        exact h
      | some q =>
        obtain ⟨v, hv⟩ := h.live this q ht
        simp [UniquePtr.step, UniquePtr.reset_holding w.st this q v ht hv] at hs
        subst hs
        exact UniquePtr.inv_reset w h this q ht
  | release this =>
    cases ht : lookup this w.st.objs with
    | none => simp [UniquePtr.step, UniquePtr.release, ht] at hs
    | some d =>
      obtain ⟨dp⟩ := d
      cases dp with
      | none =>
        simp [UniquePtr.step, UniquePtr.release, ht, update_eq_self _ _ _ ht] at hs
        subst hs
        exact h
      | some q =>
        simp [UniquePtr.step, UniquePtr.release, ht] at hs
        subst hs
        exact UniquePtr.inv_release w h this q ht
  | destroy this =>
    cases ht : lookup this w.st.objs with
    | none => simp [UniquePtr.step, UniquePtr.dtor, UniquePtr.reset, ht] at hs
    | some d =>
      obtain ⟨dp⟩ := d
      cases dp with
      | none =>
        simp [UniquePtr.step, UniquePtr.dtor_empty w.st this ht] at hs
        subst hs
        exact UniquePtr.inv_remove w h this
      | some q =>
        obtain ⟨v, hv⟩ := h.live this q ht
        simp [UniquePtr.step, UniquePtr.dtor_holding w.st this q v ht hv] at hs
        subst hs
        exact UniquePtr.inv_remove _ (UniquePtr.inv_reset w h this q ht) this

theorem UniquePtr.run_inv (ops : List (UOp T)) :
    ∀ w w' : UTrace T, UniquePtr.Inv w → UniquePtr.run true w ops = .ok w' →
      UniquePtr.Inv w' := by
  induction ops with
  | nil =>
    intro w w' h hr
    simp [UniquePtr.run] at hr
    subst hr
    exact h
  | cons op ops ih =>
    intro w w' h hr
    cases hs : UniquePtr.step true w op with
    | error e => simp [UniquePtr.run, hs] at hr
    | ok w1 =>
      simp [UniquePtr.run, hs] at hr
      exact ih w1 w' (UniquePtr.step_inv w w1 op h hs) hr

theorem UniquePtr.holders_length_le_one (l : List (Nat × UniquePtr)) (p : Addr)
    (hk : (l.map Prod.fst).Nodup)
    (hu : ∀ e1 ∈ l, ∀ e2 ∈ l, e1.2.pointer = some p → e2.2.pointer = some p →
      e1.1 = e2.1) :
    ((l.filter (fun e => decide (e.2.pointer = some p))).map Prod.fst).length ≤ 1 := by
  induction l with
  | nil => simp
  | cons e l ih =>
    simp only [List.map_cons, List.nodup_cons] at hk
    have ih' := ih hk.2 (fun e1 h1 e2 h2 =>
      hu e1 (List.mem_cons_of_mem _ h1) e2 (List.mem_cons_of_mem _ h2))
    by_cases he : e.2.pointer = some p
    · have hnil : l.filter (fun e => decide (e.2.pointer = some p)) = [] := by
        rw [List.filter_eq_nil_iff]
        intro e2 h2 hp2
        have hp2' : e2.2.pointer = some p := by simpa using hp2
        have := hu e (List.mem_cons_self _ _) e2 (List.mem_cons_of_mem _ h2) he hp2'
        exact hk.1 (this ▸ List.mem_map.2 ⟨e2, h2, rfl⟩)
      simp [List.filter_cons, he, hnil]
    · simpa [List.filter_cons, he] using ih'

/-- C3, amended: start from the empty state and run any finite sequence of
`UniquePtr` actions (construct from a fresh allocation, from null, or from a
pointer that `release()` returned and that no constructor has been given
since; move-construct, move-assign, reset, release, destroy).  In the state
reached, every address is the `pointer` of at most one live object. -/
theorem UniquePtr.at_most_one_owner (ops : List (UOp T)) (w : UTrace T)
    (hrun : UniquePtr.run true UTrace.init ops = .ok w) (p : Addr) :
    (UniquePtr.holders w.st p).length ≤ 1 ∧
    ∀ i j, UniquePtr.get w.st i = .ok (some p) → UniquePtr.get w.st j = .ok (some p) →
      i = j := by
  have h := UniquePtr.run_inv ops _ _ UniquePtr.inv_init hrun
  constructor
  · apply UniquePtr.holders_length_le_one _ _ h.keys
    intro e1 h1 e2 h2 hp1 hp2
    obtain ⟨i, ⟨q1⟩⟩ := e1
    obtain ⟨j, ⟨q2⟩⟩ := e2
    simp only at hp1 hp2
    subst hp1
    subst hp2
    exact h.uniq i j p (lookup_of_mem _ h.keys _ _ h1) (lookup_of_mem _ h.keys _ _ h2)
  · intro i j hi hj
    have aux : ∀ k, UniquePtr.get w.st k = .ok (some p) →
        lookup k w.st.objs = some ⟨some p⟩ := by
      intro k hk
      unfold UniquePtr.get at hk
      cases hl : lookup k w.st.objs with
      | none => simp [hl] at hk
      | some o =>
        obtain ⟨q⟩ := o
        simp [hl] at hk
        simp [hk]
    exact h.uniq i j p (aux i hi) (aux j hj)

theorem UniquePtr.at_most_one_owner_witness :
    (UniquePtr.holders (T := Int)
        ⟨[(3, ⟨some 100⟩), (2, ⟨none⟩), (1, ⟨none⟩)], [(100, .val 42)], []⟩ 100).length ≤ 1 ∧
    ∀ i j,
      UniquePtr.get (T := Int)
        ⟨[(3, ⟨some 100⟩), (2, ⟨none⟩), (1, ⟨none⟩)], [(100, .val 42)], []⟩ i
        = .ok (some 100) →
      UniquePtr.get (T := Int)
        ⟨[(3, ⟨some 100⟩), (2, ⟨none⟩), (1, ⟨none⟩)], [(100, .val 42)], []⟩ j
        = .ok (some 100) → i = j :=
  UniquePtr.at_most_one_owner (T := Int)
    [.constructFresh 1 100 42, .release 1, .constructReleased 2 100, .moveConstruct 3 2]
    ⟨⟨[(3, ⟨some 100⟩), (2, ⟨none⟩), (1, ⟨none⟩)], [(100, .val 42)], []⟩, []⟩ rfl 100

/-- C3 as stated fails: a pointer that `release()` returned is given to two
constructors, and both objects are alive with `get()` equal to it. -/
theorem UniquePtr.two_owners_of_released_pointer :
    ∃ w, UniquePtr.run (T := Int) false UTrace.init
        [.constructFresh 1 100 42, .release 1, .constructReleased 2 100,
          .constructReleased 3 100] = .ok w ∧
      UniquePtr.holders w.st 100 = [3, 2] ∧
      UniquePtr.get w.st 2 = .ok (some 100) ∧ UniquePtr.get w.st 3 = .ok (some 100) :=
  ⟨_, rfl, rfl, rfl, rfl⟩

end UniqueTrace

/-! ## `SharedPtr<T>`: the counter along a trace -/

section SharedTrace

variable {T : Type}

theorem SharedPtr.decrement_none (s : SState T) (this : Nat) (ptr : Option Addr)
    (ht : lookup this s.objs = some ⟨ptr, none⟩) :
    SharedPtr.decrementRefCount s this = .ok s := by
  simp [SharedPtr.decrementRefCount, ht]

theorem SharedPtr.decrement_more (s : SState T) (this : Nat) (ptr : Option Addr)
    (c : Addr) (n : Nat) (ht : lookup this s.objs = some ⟨ptr, some c⟩)
    (hc : lookup c s.cells = some (.cnt n)) (h2 : 2 ≤ n) (hM : n < SIZE_MOD) :
    SharedPtr.decrementRefCount s this
      = .ok ⟨s.objs, update c (.cnt (n - 1)) s.cells, s.freed⟩ := by
  have hne : n - 1 ≠ 0 := by omega
  simp [SharedPtr.decrementRefCount, ht, hc, dec_mod n (by omega) hM, hne]

theorem SharedPtr.decrement_last_null (s : SState T) (this : Nat) (c : Addr)
    (ht : lookup this s.objs = some ⟨none, some c⟩)
    (hc : lookup c s.cells = some (.cnt 1)) :
    SharedPtr.decrementRefCount s this
      = .ok ⟨s.objs, remove c (update c (.cnt 0) s.cells), s.freed ++ [c]⟩ := by
  have h0 : (1 + (SIZE_MOD - 1)) % SIZE_MOD = 0 := by simp [SIZE_MOD]
  simp [SharedPtr.decrementRefCount, ht, hc, h0, World.deleteVal, World.deleteCnt,
    lookup_update]

theorem SharedPtr.decrement_last_val (s : SState T) (this : Nat) (p c : Addr) (v : T)
    (ht : lookup this s.objs = some ⟨some p, some c⟩)
    (hc : lookup c s.cells = some (.cnt 1)) (hp : lookup p s.cells = some (.val v)) :
    SharedPtr.decrementRefCount s this
      = .ok ⟨s.objs, remove c (remove p (update c (.cnt 0) s.cells)),
          s.freed ++ [p] ++ [c]⟩ := by
  have h0 : (1 + (SIZE_MOD - 1)) % SIZE_MOD = 0 := by simp [SIZE_MOD]
  have hpc : p ≠ c := by
    rintro rfl
    simp [hc] at hp
  have hcp : c ≠ p := fun h => hpc h.symm
  simp [SharedPtr.decrementRefCount, ht, hc, h0, World.deleteVal, World.deleteCnt,
    lookup_update, lookup_remove, hpc, hcp, hp]

theorem SharedPtr.sharers_update (objs : List (Nat × SharedPtr))
    (cells cells' : List (Addr × Cell T)) (f f' : List Addr)
    (this : Nat) (o x : SharedPtr) (c : Addr) (ht : lookup this objs = some o) :
    SharedPtr.sharers (T := T) ⟨update this x objs, cells', f'⟩ c
        + (if o.refCount = some c then 1 else 0)
      = SharedPtr.sharers (T := T) ⟨objs, cells, f⟩ c
        + (if x.refCount = some c then 1 else 0) := by
  have := countP_update (fun e : Nat × SharedPtr => decide (e.2.refCount = some c))
    this x o objs ht
  simpa [SharedPtr.sharers] using this

theorem SharedPtr.sharers_pos (s : SState T) (i : Nat) (ptr : Option Addr) (c : Addr)
    (hi : lookup i s.objs = some ⟨ptr, some c⟩) : 0 < SharedPtr.sharers s c :=
  countP_pos_of_lookup _ i ⟨ptr, some c⟩ s.objs hi (by simp)

theorem SharedPtr.sharers_le (s : SState T) (c : Addr) :
    SharedPtr.sharers s c ≤ s.objs.length :=
  List.countP_le_length _

theorem SharedPtr.inv_drop (s : SState T) (h : SharedPtr.Inv s) (this : Nat)
    (ptr rc : Option Addr) (ht : lookup this s.objs = some ⟨ptr, rc⟩)
    (cells' : List (Addr × Cell T)) (freed' : List Addr)
    (hV : ∀ i p' c', i ≠ this → lookup i s.objs = some ⟨p', some c'⟩ →
      lookup c' cells'
        = some (.cnt (SharedPtr.sharers s c' - (if rc = some c' then 1 else 0))))
    (hW : ∀ i p' rc', i ≠ this → lookup i s.objs = some ⟨some p', rc'⟩ →
      ∃ v, lookup p' cells' = some (.val v)) :
    SharedPtr.Inv ⟨update this ⟨none, none⟩ s.objs, cells', freed'⟩ := by
  have hview : ∀ i, lookup i (update this (⟨none, none⟩ : SharedPtr) s.objs)
      = if i = this then some ⟨none, none⟩ else lookup i s.objs := by
    intro i
    rw [lookup_update]
    split_ifs <;> simp [ht]
  have hsh : ∀ c', SharedPtr.sharers (T := T)
        ⟨update this ⟨none, none⟩ s.objs, cells', freed'⟩ c'
      = SharedPtr.sharers s c' - (if rc = some c' then 1 else 0) := by
    intro c'
    have := SharedPtr.sharers_update s.objs s.cells cells' s.freed freed' this
      ⟨ptr, rc⟩ ⟨none, none⟩ c' ht
    simp only [reduceCtorEq, if_false, Nat.add_zero] at this
    have e : SharedPtr.sharers (T := T) ⟨s.objs, s.cells, s.freed⟩ c'
        = SharedPtr.sharers s c' := rfl
    rw [e] at this
    omega
  constructor
  · simpa [keys_update] using h.keys
  · simpa [length_update] using h.room
  · intro i p' c' hi
    simp only [hview] at hi
    split_ifs at hi with hti
    · simp at hi
    · rw [hsh]
      exact hV i p' c' hti hi
  · intro i p' rc' hi
    simp only [hview] at hi
    split_ifs at hi with hti
    · simp at hi
    · exact ⟨hW i p' rc' hti hi, (h.live i p' rc' hi).2⟩
  · intro i j p' q' c' hi hj
    simp only [hview] at hi hj
    split_ifs at hi hj with hti htj htj
    · simp at hi
    · simp at hi
    · simp at hj
    · exact h.samePtr i j p' q' c' hi hj
  · intro i j p' c' d' hi hj
    simp only [hview] at hi hj
    split_ifs at hi hj with hti htj htj
    · simp at hi
    · simp at hi
    · simp at hj
    · exact h.sameCnt i j p' c' d' hi hj

theorem SharedPtr.sharers_two (s : SState T) (i this : Nat) (p q : Option Addr)
    (c : Addr) (hne : i ≠ this) (hi : lookup i s.objs = some ⟨p, some c⟩)
    (ht : lookup this s.objs = some ⟨q, some c⟩) : 2 ≤ SharedPtr.sharers s c := by
  have h1 := SharedPtr.sharers_update s.objs s.cells s.cells s.freed s.freed this
    ⟨q, some c⟩ ⟨none, none⟩ c ht
  have h2 : 0 < SharedPtr.sharers (T := T)
      ⟨update this ⟨none, none⟩ s.objs, s.cells, s.freed⟩ c :=
    SharedPtr.sharers_pos _ i p c (by simpa [lookup_update, hne] using hi)
  have e : SharedPtr.sharers (T := T) ⟨s.objs, s.cells, s.freed⟩ c
      = SharedPtr.sharers s c := rfl
  simp only [if_true, reduceCtorEq, if_false, e] at h1
  omega

theorem SharedPtr.drop_spec (s : SState T) (h : SharedPtr.Inv s) (this : Nat)
    (ptr rc : Option Addr) (ht : lookup this s.objs = some ⟨ptr, rc⟩) :
    ∃ cells' new,
      SharedPtr.decrementRefCount s this = .ok ⟨s.objs, cells', s.freed ++ new⟩ ∧
      SharedPtr.Inv ⟨update this ⟨none, none⟩ s.objs, cells', s.freed ++ new⟩ ∧
      (new ≠ [] → ∃ c, rc = some c ∧ lookup c s.cells = some (.cnt 1) ∧
        new = ptr.toList ++ [c]) ∧
      (∀ a, a ∈ new → lookup a cells' = none) ∧
      (∀ a, a ∉ new → lookup a s.cells ≠ none → lookup a cells' ≠ none) := by
  cases rc with
  | none =>
    refine ⟨s.cells, [], ?_, ?_, ?_, ?_, ?_⟩
    · simp [SharedPtr.decrement_none s this ptr ht]
    · apply SharedPtr.inv_drop s h this ptr none ht
      · intro i p' c' _ hi
        simpa using h.count i p' c' hi
      · intro i p' rc' _ hi
        exact (h.live i p' rc' hi).1
    · simp
    · simp
    · intro a _ ha
      exact ha
  | some c =>
    have hc := h.count this ptr c ht
    have hpos := SharedPtr.sharers_pos s this ptr c ht
    have hle := SharedPtr.sharers_le s c
    have hM : SharedPtr.sharers s c < SIZE_MOD := lt_of_le_of_lt hle h.room
    by_cases h1 : SharedPtr.sharers s c = 1
    · -- the last owner: the value and the counter are deleted
      rw [h1] at hc
      have hother : ∀ i p', i ≠ this → lookup i s.objs ≠ some ⟨p', some c⟩ := by
        intro i p' hne hi
        have := SharedPtr.sharers_two s i this p' ptr c hne hi ht
        omega
      have hcnt : ∀ i p' c', i ≠ this → lookup i s.objs = some ⟨p', some c'⟩ →
          c' ≠ c ∧ ptr ≠ some c' := by
        intro i p' c' hne hi
        refine ⟨?_, ?_⟩
        · rintro rfl
          exact hother i p' hne hi
        · intro hp
          obtain ⟨v, hv⟩ := (h.live this c' (some c) (hp ▸ ht)).1
          have := h.count i p' c' hi
          simp [hv] at this
      have hval : ∀ i p' rc', i ≠ this → lookup i s.objs = some ⟨some p', rc'⟩ →
          p' ≠ c ∧ ptr ≠ some p' := by
        intro i p' rc' hne hi
        refine ⟨?_, ?_⟩
        · rintro rfl
          obtain ⟨v, hv⟩ := (h.live i p' rc' hi).1
          simp [hc] at hv
        · intro hp
          have := h.sameCnt i this p' rc' (some c) hi (hp ▸ ht)
          subst this
          exact hother i (some p') hne hi
      cases ptr with
      | none =>
        refine ⟨remove c (update c (.cnt 0) s.cells), [c], ?_, ?_, ?_, ?_, ?_⟩
        · exact SharedPtr.decrement_last_null s this c ht hc
        · apply SharedPtr.inv_drop s h this none (some c) ht
          · intro i p' c' hne hi
            have hcc := (hcnt i p' c' hne hi).1
            have hcc' : ¬ c = c' := fun e => hcc e.symm
            simpa [lookup_remove, lookup_update, hcc, hcc'] using h.count i p' c' hi
          · intro i p' rc' hne hi
            have hpc := (hval i p' rc' hne hi).1
            simpa [lookup_remove, lookup_update, hpc] using (h.live i p' rc' hi).1
        · intro _
          exact ⟨c, rfl, hc, by simp⟩
        · intro a ha
          simp at ha
          subst ha
          simp [lookup_remove]
        · intro a ha hl
          have hac : a ≠ c := by simpa using ha
          simpa [lookup_remove, lookup_update, hac] using hl
      | some p =>
        obtain ⟨v, hv⟩ := (h.live this p (some c) ht).1
        refine ⟨remove c (remove p (update c (.cnt 0) s.cells)), [p] ++ [c],
          ?_, ?_, ?_, ?_, ?_⟩
        · rw [← List.append_assoc]
          exact SharedPtr.decrement_last_val s this p c v ht hc hv
        · apply SharedPtr.inv_drop s h this (some p) (some c) ht
          · intro i p' c' hne hi
            obtain ⟨hcc, hcp⟩ := hcnt i p' c' hne hi
            have hcc' : ¬ c = c' := fun e => hcc e.symm
            have hcp' : c' ≠ p := fun e => hcp (by simp [e])
            simpa [lookup_remove, lookup_update, hcc, hcc', hcp'] using
              h.count i p' c' hi
          · intro i p' rc' hne hi
            obtain ⟨hpc, hpp⟩ := hval i p' rc' hne hi
            have hpp' : p' ≠ p := fun e => hpp (by simp [e])
            simpa [lookup_remove, lookup_update, hpc, hpp'] using (h.live i p' rc' hi).1
        · intro _
          exact ⟨c, rfl, hc, by simp⟩
        · intro a ha
          simp at ha
          rcases ha with rfl | rfl
          · simp [lookup_remove]
          · simp [lookup_remove]
        · intro a ha hl
          simp at ha
          simpa [lookup_remove, lookup_update, ha.1, ha.2] using hl
    · -- other owners remain: only the counter changes
      have h2 : 2 ≤ SharedPtr.sharers s c := by omega
      refine ⟨update c (.cnt (SharedPtr.sharers s c - 1)) s.cells, [], ?_, ?_, ?_, ?_, ?_⟩
      · simpa using SharedPtr.decrement_more s this ptr c _ ht hc h2 hM
      · apply SharedPtr.inv_drop s h this ptr (some c) ht
        · intro i p' c' hne hi
          by_cases hcc : c' = c
          · subst hcc
            simp [lookup_update, hc]
          · have hcc' : ¬ c = c' := fun e => hcc e.symm
            simpa [lookup_update, hcc, hcc'] using h.count i p' c' hi
        · intro i p' rc' hne hi
          obtain ⟨v, hv⟩ := (h.live i p' rc' hi).1
          have hpc : p' ≠ c := by
            rintro rfl
            simp [hc] at hv
          exact ⟨v, by simpa [lookup_update, hpc] using hv⟩
      · simp
      · simp
      · intro a _ hl
        by_cases hac : a = c
        · subst hac
          simp [lookup_update, hc]
        · simpa [lookup_update, hac] using hl

theorem SharedPtr.sharers_cons (objs : List (Nat × SharedPtr))
    (cells : List (Addr × Cell T)) (f : List Addr) (this : Nat) (x : SharedPtr) (c : Addr) :
    SharedPtr.sharers (T := T) ⟨(this, x) :: objs, cells, f⟩ c
      = List.countP (fun e : Nat × SharedPtr => decide (e.2.refCount = some c)) objs
        + (if x.refCount = some c then 1 else 0) := by
  simp [SharedPtr.sharers, List.countP_cons]

theorem SharedPtr.inv_adopt (s : SState T) (h : SharedPtr.Inv s) (this other : Nat)
    (op orc : Option Addr)
    (ht : lookup this s.objs = some ⟨none, none⟩)
    (ho : lookup other s.objs = some ⟨op, orc⟩)
    (cells' : List (Addr × Cell T)) (freed' : List Addr)
    (hV : ∀ i p' c', lookup i s.objs = some ⟨p', some c'⟩ →
      lookup c' cells'
        = some (.cnt (SharedPtr.sharers s c' + (if orc = some c' then 1 else 0))))
    (hW : ∀ i p' rc', lookup i s.objs = some ⟨some p', rc'⟩ →
      ∃ v, lookup p' cells' = some (.val v)) :
    SharedPtr.Inv ⟨update this ⟨op, orc⟩ s.objs, cells', freed'⟩ := by
  have hphi : ∀ i, lookup i (update this (⟨op, orc⟩ : SharedPtr) s.objs)
      = lookup (if i = this then other else i) s.objs := by
    intro i
    rw [lookup_update]
    split_ifs <;> simp [ht, ho]
  have hsh : ∀ c', SharedPtr.sharers (T := T)
        ⟨update this ⟨op, orc⟩ s.objs, cells', freed'⟩ c'
      = SharedPtr.sharers s c' + (if orc = some c' then 1 else 0) := by
    intro c'
    have := SharedPtr.sharers_update s.objs s.cells cells' s.freed freed' this
      ⟨none, none⟩ ⟨op, orc⟩ c' ht
    simp only [reduceCtorEq, if_false, Nat.add_zero] at this
    exact this
  constructor
  · simpa [keys_update] using h.keys
  · simpa [length_update] using h.room
  · intro i p' c' hi
    rw [hphi] at hi
    rw [hsh]
    exact hV _ p' c' hi
  · intro i p' rc' hi
    rw [hphi] at hi
    exact ⟨hW _ p' rc' hi, (h.live _ p' rc' hi).2⟩
  · intro i j p' q' c' hi hj
    rw [hphi] at hi hj
    exact h.samePtr _ _ p' q' c' hi hj
  · intro i j p' c' d' hi hj
    rw [hphi] at hi hj
    exact h.sameCnt _ _ p' c' d' hi hj

theorem SharedPtr.adopt_spec (s : SState T) (h : SharedPtr.Inv s) (this other : Nat)
    (op orc : Option Addr)
    (ht : lookup this s.objs = some ⟨none, none⟩)
    (ho : lookup other s.objs = some ⟨op, orc⟩) :
    ∃ cells',
      SharedPtr.incrementRefCount
          (⟨update this ⟨op, orc⟩ s.objs, s.cells, s.freed⟩ : SState T) this
        = .ok ⟨update this ⟨op, orc⟩ s.objs, cells', s.freed⟩ ∧
      SharedPtr.Inv ⟨update this ⟨op, orc⟩ s.objs, cells', s.freed⟩ ∧
      (∀ a, lookup a cells' = none ↔ lookup a s.cells = none) := by
  have hthis : lookup this (update this (⟨op, orc⟩ : SharedPtr) s.objs)
      = some ⟨op, orc⟩ := by
    simp [lookup_update, ht]
  cases orc with
  | none =>
    refine ⟨s.cells, ?_, ?_, fun _ => Iff.rfl⟩
    · simp [SharedPtr.incrementRefCount, hthis]
    · apply SharedPtr.inv_adopt s h this other op none ht ho
      · intro i p' c' hi
        simpa using h.count i p' c' hi
      · intro i p' rc' hi
        exact (h.live i p' rc' hi).1
  | some c =>
    have hc := h.count other op c ho
    have hsh := SharedPtr.sharers_update s.objs s.cells s.cells s.freed s.freed this
      ⟨none, none⟩ ⟨op, some c⟩ c ht
    have hle := SharedPtr.sharers_le (T := T)
      ⟨update this ⟨op, some c⟩ s.objs, s.cells, s.freed⟩ c
    have e : SharedPtr.sharers (T := T) ⟨s.objs, s.cells, s.freed⟩ c
        = SharedPtr.sharers s c := rfl
    simp only [reduceCtorEq, if_false, Nat.add_zero, if_true, e] at hsh
    have hroom := h.room
    simp only [length_update] at hle
    have hM : SharedPtr.sharers s c + 1 < SIZE_MOD := by omega
    refine ⟨update c (.cnt (SharedPtr.sharers s c + 1)) s.cells, ?_, ?_, ?_⟩
    · simp [SharedPtr.incrementRefCount, hthis, hc, inc_mod _ hM]
    · apply SharedPtr.inv_adopt s h this other op (some c) ht ho
      · intro i p' c' hi
        by_cases hcc : c' = c
        · subst hcc
          simp [lookup_update, hc]
        · have hcc' : ¬ c = c' := fun e => hcc e.symm
          simpa [lookup_update, hcc, hcc'] using h.count i p' c' hi
      · intro i p' rc' hi
        obtain ⟨v, hv⟩ := (h.live i p' rc' hi).1
        have hpc : p' ≠ c := by
          rintro rfl
          simp [hc] at hv
        exact ⟨v, by simpa [lookup_update, hpc] using hv⟩
    · intro a
      by_cases hac : a = c
      · subst hac
        simp [lookup_update, hc]
      · simp [lookup_update, hac]

theorem SharedPtr.inv_consEmpty (s : SState T) (h : SharedPtr.Inv s) (this : Nat)
    (ht : lookup this s.objs = none) (hroom : s.objs.length + 1 < SIZE_MOD) :
    SharedPtr.Inv ⟨(this, ⟨none, none⟩) :: s.objs, s.cells, s.freed⟩ := by
  have hsh : ∀ c', SharedPtr.sharers (T := T)
      ⟨(this, ⟨none, none⟩) :: s.objs, s.cells, s.freed⟩ c' = SharedPtr.sharers s c' := by
    intro c'
    simp [SharedPtr.sharers_cons, SharedPtr.sharers]
  constructor
  · exact keys_cons_nodup _ _ _ h.keys ht
  · simpa using hroom
  · intro i p' c' hi
    simp only [lookup_cons] at hi
    split_ifs at hi with hti
    · simp at hi
    · rw [hsh]
      exact h.count i p' c' hi
  · intro i p' rc' hi
    simp only [lookup_cons] at hi
    split_ifs at hi with hti
    · simp at hi
    · exact h.live i p' rc' hi
  · intro i j p' q' c' hi hj
    simp only [lookup_cons] at hi hj
    split_ifs at hi hj with hti htj htj
    · simp at hi
    · simp at hi
    · simp at hj
    · exact h.samePtr i j p' q' c' hi hj
  · intro i j p' c' d' hi hj
    simp only [lookup_cons] at hi hj
    split_ifs at hi hj with hti htj htj
    · simp at hi
    · simp at hi
    · simp at hj
    · exact h.sameCnt i j p' c' d' hi hj

theorem SharedPtr.inv_removeEmpty (s : SState T) (h : SharedPtr.Inv s) (this : Nat)
    (ht : lookup this s.objs = some ⟨none, none⟩) :
    SharedPtr.Inv ⟨remove this s.objs, s.cells, s.freed⟩ := by
  have hsh : ∀ c', SharedPtr.sharers (T := T)
      ⟨remove this s.objs, s.cells, s.freed⟩ c' = SharedPtr.sharers s c' := by
    intro c'
    have := countP_remove (fun e : Nat × SharedPtr => decide (e.2.refCount = some c'))
      this ⟨none, none⟩ s.objs h.keys ht
    simpa [SharedPtr.sharers] using this
  constructor
  · exact keys_remove_nodup _ _ h.keys
  · exact lt_of_le_of_lt (length_remove_le _ _) h.room
  · intro i p' c' hi
    simp only [lookup_remove] at hi
    split_ifs at hi with hti
    rw [hsh]
    exact h.count i p' c' hi
  · intro i p' rc' hi
    simp only [lookup_remove] at hi
    split_ifs at hi with hti
    exact h.live i p' rc' hi
  · intro i j p' q' c' hi hj
    simp only [lookup_remove] at hi hj
    split_ifs at hi hj with hti htj
    exact h.samePtr i j p' q' c' hi hj
  · intro i j p' c' d' hi hj
    simp only [lookup_remove] at hi hj
    split_ifs at hi hj with hti htj
    exact h.sameCnt i j p' c' d' hi hj

theorem SharedPtr.inv_allocVal (s : SState T) (h : SharedPtr.Inv s) (a : Addr) (v : T)
    (ha : lookup a s.cells = none) :
    SharedPtr.Inv ⟨s.objs, (a, .val v) :: s.cells, s.freed⟩ := by
  constructor
  · exact h.keys
  · exact h.room
  · intro i p' c' hi
    have hc := h.count i p' c' hi
    have hne : ¬ a = c' := by
      rintro rfl
      simp [ha] at hc
    simpa [hne] using hc
  · intro i p' rc' hi
    obtain ⟨⟨v', hv'⟩, hrc⟩ := h.live i p' rc' hi
    have hne : ¬ a = p' := by
      rintro rfl
      simp [ha] at hv'
    exact ⟨⟨v', by simpa [hne] using hv'⟩, hrc⟩
  · exact h.samePtr
  · exact h.sameCnt

theorem SharedPtr.inv_ctor (s : SState T) (h : SharedPtr.Inv s) (this : Nat)
    (ptr : Option Addr) (c : Addr)
    (ht : lookup this s.objs = none) (hc : lookup c s.cells = none)
    (hroom : s.objs.length + 1 < SIZE_MOD)
    (hp : ∀ p, ptr = some p → (∃ v, lookup p s.cells = some (.val v)) ∧
      ∀ i rc, lookup i s.objs ≠ some ⟨some p, rc⟩) :
    SharedPtr.Inv ⟨(this, ⟨ptr, some c⟩) :: s.objs, (c, .cnt 1) :: s.cells, s.freed⟩ := by
  have hfresh : ∀ i p', lookup i s.objs ≠ some ⟨p', some c⟩ := by
    intro i p' hi
    have := h.count i p' c hi
    simp [hc] at this
  have hzero : SharedPtr.sharers s c = 0 := by
    rw [SharedPtr.sharers, List.countP_eq_zero]
    intro e he
    obtain ⟨i, ⟨p', rc'⟩⟩ := e
    have hl := lookup_of_mem _ h.keys _ _ he
    simp only [decide_eq_true_eq]
    rintro rfl
    exact hfresh i p' hl
  have hsh : ∀ c', SharedPtr.sharers (T := T)
      ⟨(this, ⟨ptr, some c⟩) :: s.objs, (c, .cnt 1) :: s.cells, s.freed⟩ c'
      = SharedPtr.sharers s c' + (if c = c' then 1 else 0) := by
    intro c'
    rw [SharedPtr.sharers_cons]
    simp [SharedPtr.sharers]
  constructor
  · exact keys_cons_nodup _ _ _ h.keys ht
  · simpa using hroom
  · intro i p' c' hi
    rw [hsh]
    simp only [lookup_cons] at hi
    split_ifs at hi with hti
    · simp at hi
      obtain ⟨_, rfl⟩ := hi
      simp [hzero]
    · have hne : ¬ c = c' := by
        rintro rfl
        exact hfresh i p' hi
      simpa [hne] using h.count i p' c' hi
  · intro i p' rc' hi
    simp only [lookup_cons] at hi ⊢
    split_ifs at hi with hti
    · simp at hi
      obtain ⟨rfl, rfl⟩ := hi
      obtain ⟨v, hv⟩ := (hp p' rfl).1
      have hne : ¬ c = p' := by
        rintro rfl
        simp [hc] at hv
      exact ⟨⟨v, by simpa [hne] using hv⟩, by simp⟩
    · obtain ⟨⟨v, hv⟩, hrc⟩ := h.live i p' rc' hi
      have hne : ¬ c = p' := by
        rintro rfl
        simp [hc] at hv
      exact ⟨⟨v, by simpa [hne] using hv⟩, hrc⟩
  · intro i j p' q' c' hi hj
    simp only [lookup_cons] at hi hj
    split_ifs at hi hj with hti htj htj
    · simp at hi hj
      rw [← hi.1, ← hj.1]
    · simp at hi
      obtain ⟨_, rfl⟩ := hi
      exact absurd hj (hfresh j q')
    · simp at hj
      obtain ⟨_, rfl⟩ := hj
      exact absurd hi (hfresh i p')
    · exact h.samePtr i j p' q' c' hi hj
  · intro i j p' c' d' hi hj
    simp only [lookup_cons] at hi hj
    split_ifs at hi hj with hti htj htj
    · simp at hi hj
      rw [← hi.2, ← hj.2]
    · simp at hi
      obtain ⟨rfl, _⟩ := hi
      exact absurd hj ((hp p' rfl).2 j d')
    · simp at hj
      obtain ⟨rfl, _⟩ := hj
      exact absurd hi ((hp p' rfl).2 i c')
    · exact h.sameCnt i j p' c' d' hi hj

theorem SharedPtr.freedBy_nothing (s s' : SState T) (this : Nat)
    (hf : s'.freed = s.freed)
    (hc : ∀ a, lookup a s.cells ≠ none → lookup a s'.cells ≠ none) :
    SharedPtr.FreedBy s s' this :=
  ⟨[], by simp [hf], by simp, by simp, fun a _ ha => hc a ha⟩

theorem SharedPtr.inv_noDangling (s : SState T) (h : SharedPtr.Inv s) :
    SharedPtr.NoDangling s := by
  intro i o hi
  obtain ⟨ptr, rc⟩ := o
  constructor
  · intro p hp
    simp only at hp
    subst hp
    exact (h.live i p rc hi).1
  · intro c hc
    simp only at hc
    subst hc
    exact ⟨_, h.count i ptr c hi⟩

theorem SharedPtr.step_spec (s : SState T) (h : SharedPtr.Inv s) (op : SOp T) :
    (∃ s', SharedPtr.step s op = .ok s' ∧ SharedPtr.Inv s' ∧
      SharedPtr.FreedBy s s' op.target) ∨
    SharedPtr.step s op = .error .badObject ∨
    SharedPtr.step s op = .error .badAlloc := by
  cases op with
  | construct this a v c =>
    by_cases hroom : SIZE_MOD ≤ s.objs.length + 1
    · right; right
      simp [SharedPtr.step, SOp.creates, hroom]
    · cases ha : lookup a s.cells with
      | some _ =>
        right; right
        simp [SharedPtr.step, SOp.creates, hroom, SOp.exec, World.alloc, ha]
      | none =>
        cases ht : lookup this s.objs with
        | some _ =>
          right; left
          simp [SharedPtr.step, SOp.creates, hroom, SOp.exec, World.alloc, ha,
            SharedPtr.ctor, ht]
        | none =>
          by_cases hac : a = c
          · right; right
            subst hac
            simp [SharedPtr.step, SOp.creates, hroom, SOp.exec, World.alloc, ha,
              SharedPtr.ctor, ht]
          · cases hc : lookup c s.cells with
            | some _ =>
              right; right
              simp [SharedPtr.step, SOp.creates, hroom, SOp.exec, World.alloc, ha,
                SharedPtr.ctor, ht, hac, hc]
            | none =>
              left
              refine ⟨⟨(this, ⟨some a, some c⟩) :: s.objs,
                (c, .cnt 1) :: (a, .val v) :: s.cells, s.freed⟩, ?_, ?_, ?_⟩
              · simp [SharedPtr.step, SOp.creates, hroom, SOp.exec, World.alloc, ha,
                  SharedPtr.ctor, ht, hac, hc]
              · have h1 := SharedPtr.inv_allocVal s h a v ha
                apply SharedPtr.inv_ctor _ h1 this (some a) c ht
                · simp [hac, hc]
                · simpa using hroom
                · intro p hp
                  simp at hp
                  subst hp
                  refine ⟨⟨v, by simp⟩, ?_⟩
                  intro i rc hi
                  obtain ⟨v', hv'⟩ := (h.live i a rc hi).1
                  simp [ha] at hv'
              · refine SharedPtr.freedBy_nothing _ _ _ (by rfl) ?_
                intro x hx
                simp only [lookup_cons]
                split_ifs <;> simp [hx]
  | constructNull this c =>
    by_cases hroom : SIZE_MOD ≤ s.objs.length + 1
    · right; right
      simp [SharedPtr.step, SOp.creates, hroom]
    · cases ht : lookup this s.objs with
      | some _ =>
        right; left
        simp [SharedPtr.step, SOp.creates, hroom, SOp.exec, SharedPtr.ctor, ht]
      | none =>
        cases hc : lookup c s.cells with
        | some _ =>
          right; right
          simp [SharedPtr.step, SOp.creates, hroom, SOp.exec, World.alloc,
            SharedPtr.ctor, ht, hc]
        | none =>
          left
          refine ⟨⟨(this, ⟨none, some c⟩) :: s.objs, (c, .cnt 1) :: s.cells, s.freed⟩,
            ?_, ?_, ?_⟩
          · simp [SharedPtr.step, SOp.creates, hroom, SOp.exec, World.alloc,
              SharedPtr.ctor, ht, hc]
          · apply SharedPtr.inv_ctor s h this none c ht hc
            · simpa using hroom
            · intro p hp
              simp at hp
          · refine SharedPtr.freedBy_nothing _ _ _ (by rfl) ?_
            intro x hx
            simp only [lookup_cons]
            split_ifs <;> simp [hx]
  | copyConstruct this other =>
    by_cases hroom : SIZE_MOD ≤ s.objs.length + 1
    · right; right
      simp [SharedPtr.step, SOp.creates, hroom]
    · cases ht : lookup this s.objs with
      | some _ =>
        right; left
        simp [SharedPtr.step, SOp.creates, hroom, SOp.exec, SharedPtr.copyCtor, ht]
      | none =>
        cases ho : lookup other s.objs with
        | none =>
          right; left
          simp [SharedPtr.step, SOp.creates, hroom, SOp.exec, SharedPtr.copyCtor, ht, ho]
        | some o =>
          obtain ⟨op, orc⟩ := o
          left
          have hne : ¬ this = other := by
            rintro rfl
            simp [ht] at ho
          have h1 := SharedPtr.inv_consEmpty s h this ht (by simpa using hroom)
          obtain ⟨cells', hinc, hinv, hlive⟩ := SharedPtr.adopt_spec _ h1 this other
            op orc (by simp) (by simp [hne, ho])
          simp only [update, if_true] at hinc hinv
          refine ⟨_, ?_, hinv, ?_⟩
          · simp only [SharedPtr.step, SOp.creates, hroom, and_false, if_false, SOp.exec,
              SharedPtr.copyCtor, ht, ho]
            exact hinc
          · refine SharedPtr.freedBy_nothing _ _ _ (by rfl) ?_
            intro x hx
            simpa [hlive x] using hx
  | copyAssign this other =>
    cases ht : lookup this s.objs with
    | none =>
      right; left
      simp [SharedPtr.step, SOp.creates, SOp.exec, SharedPtr.copyAssign, ht]
    | some d =>
      cases ho : lookup other s.objs with
      | none =>
        right; left
        simp [SharedPtr.step, SOp.creates, SOp.exec, SharedPtr.copyAssign, ht, ho]
      | some o =>
        left
        by_cases hne : this = other
        · refine ⟨s, ?_, h, SharedPtr.freedBy_nothing _ _ _ (by rfl) (fun _ hx => hx)⟩
          simp [SharedPtr.step, SOp.creates, SOp.exec, SharedPtr.copyAssign, ht, ho, hne]
        · obtain ⟨dp, drc⟩ := d
          obtain ⟨op, orc⟩ := o
          obtain ⟨cells1, new, hdec, hinv1, hnew, hgone, hkept⟩ :=
            SharedPtr.drop_spec s h this dp drc ht
          have hne2 : other ≠ this := fun e => hne e.symm
          obtain ⟨cells', hinc, hinv, hlive⟩ := SharedPtr.adopt_spec _ hinv1 this other
            op orc (by simp [lookup_update, ht]) (by simp [lookup_update, hne2, ho])
          simp only [update_update] at hinc hinv
          refine ⟨_, ?_, hinv, new, rfl, ?_, ?_, ?_⟩
          · simp only [SharedPtr.step, SOp.creates, Bool.false_eq_true, false_and,
              if_false, SOp.exec, SharedPtr.copyAssign, ht, ho, hdec, ne_eq, hne,
              not_false_eq_true, if_true]
            exact hinc
          · intro hn
            obtain ⟨c, rfl, hc, hl⟩ := hnew hn
            exact ⟨dp, c, ht, hc, hl⟩
          · intro x hx
            exact (hlive x).2 (hgone x hx)
          · intro x hx hl
            intro hcontra
            exact hkept x hx hl ((hlive x).1 hcontra)
  | assignNull this =>
    cases ht : lookup this s.objs with
    | none =>
      right; left
      simp [SharedPtr.step, SOp.creates, SOp.exec, SharedPtr.assignNull,
        SharedPtr.decrementRefCount, ht]
    | some d =>
      left
      obtain ⟨dp, drc⟩ := d
      obtain ⟨cells1, new, hdec, hinv1, hnew, hgone, hkept⟩ :=
        SharedPtr.drop_spec s h this dp drc ht
      refine ⟨_, ?_, hinv1, new, rfl, ?_, hgone, hkept⟩
      · simp [SharedPtr.step, SOp.creates, SOp.exec, SharedPtr.assignNull, hdec]
      · intro hn
        obtain ⟨c, rfl, hc, hl⟩ := hnew hn
        exact ⟨dp, c, ht, hc, hl⟩
  | destroy this =>
    cases ht : lookup this s.objs with
    | none =>
      right; left
      simp [SharedPtr.step, SOp.creates, SOp.exec, SharedPtr.dtor,
        SharedPtr.decrementRefCount, ht]
    | some d =>
      left
      obtain ⟨dp, drc⟩ := d
      obtain ⟨cells1, new, hdec, hinv1, hnew, hgone, hkept⟩ :=
        SharedPtr.drop_spec s h this dp drc ht
      have h2 := SharedPtr.inv_removeEmpty _ hinv1 this (by simp [lookup_update, ht])
      simp only [remove_update] at h2
      refine ⟨_, ?_, h2, new, rfl, ?_, hgone, hkept⟩
      · simp [SharedPtr.step, SOp.creates, SOp.exec, SharedPtr.dtor, hdec]
      · intro hn
        obtain ⟨c, rfl, hc, hl⟩ := hnew hn
        exact ⟨dp, c, ht, hc, hl⟩

theorem SharedPtr.shared_inv_init : SharedPtr.Inv (World.init : SState T) := by
  constructor <;> simp [World.init, SIZE_MOD]

theorem SharedPtr.shared_run_inv (ops : List (SOp T)) :
    ∀ s s' : SState T, SharedPtr.Inv s → SharedPtr.run s ops = .ok s' →
      SharedPtr.Inv s' := by
  induction ops with
  | nil =>
    intro s s' h hr
    simp [SharedPtr.run] at hr
    subst hr
    exact h
  | cons op ops ih =>
    intro s s' h hr
    rcases SharedPtr.step_spec s h op with ⟨s1, hs1, hinv, _⟩ | he | he
    · simp [SharedPtr.run, hs1] at hr
      exact ih s1 s' hinv hr
    · simp [SharedPtr.run, he] at hr
    · simp [SharedPtr.run, he] at hr

/-- For a pointee without smart-pointer members: start from the empty state and run any finite sequence of `SharedPtr`
actions (construct from a fresh allocation or from null, copy-construct,
copy-assign, assign `nullptr`, destroy).  In the state reached the live
objects sit in distinct places, and for every live object with a counter `c`:
the cell at `c` is a counter holding the number of live objects whose
`refCount` is `c`, `use_count()` returns that number, and all those objects
have the same `pointer`. -/
theorem SharedPtr.counter_equals_sharers_memberless (ops : List (SOp T)) (s : SState T)
    (hrun : SharedPtr.run World.init ops = .ok s)
    (i : Nat) (o : SharedPtr) (c : Addr)
    (hi : lookup i s.objs = some o) (hc : o.refCount = some c) :
    (s.objs.map Prod.fst).Nodup ∧
    lookup c s.cells = some (.cnt (SharedPtr.sharers s c)) ∧
    SharedPtr.use_count s i = .ok (SharedPtr.sharers s c) ∧
    ∀ j o', lookup j s.objs = some o' → o'.refCount = some c →
      o'.pointer = o.pointer := by
  have h := SharedPtr.shared_run_inv ops _ _ SharedPtr.shared_inv_init hrun
  obtain ⟨ptr, rc⟩ := o
  simp only at hc
  subst hc
  have hcell := h.count i ptr c hi
  refine ⟨h.keys, hcell, ?_, ?_⟩
  · simp [SharedPtr.use_count, hi, hcell]
  · intro j o' hj hc'
    obtain ⟨ptr', rc'⟩ := o'
    simp only at hc'
    subst hc'
    exact h.samePtr j i ptr' ptr c hj hi

/-- For a pointee without smart-pointer members: in a state reached from the empty state by any finite sequence of
`SharedPtr` actions, no member of a live object dangles, and one more action
either succeeds or stops on a dead/occupied object place or an allocator
refusal, never on an access to or a delete of freed memory.  When it succeeds:
the free log grows by nothing unless the counter of the object acted on held 1,
and then by its pointer (if not null) and that counter; no other address
leaves the heap; no live object refers to an address just freed; and again no
member of a live object dangles. -/
theorem SharedPtr.no_use_after_free_memberless (ops : List (SOp T)) (s : SState T)
    (hrun : SharedPtr.run World.init ops = .ok s) (op : SOp T) :
    SharedPtr.NoDangling s ∧
    ((∃ s', SharedPtr.step s op = .ok s') ∨ SharedPtr.step s op = .error .badObject ∨
      SharedPtr.step s op = .error .badAlloc) ∧
    ∀ s', SharedPtr.step s op = .ok s' →
      SharedPtr.FreedBy s s' op.target ∧ SharedPtr.NoDangling s' ∧
      ∀ new, s'.freed = s.freed ++ new → ∀ a, a ∈ new → ¬ SharedPtr.Referenced s' a := by
  have h := SharedPtr.shared_run_inv ops _ _ SharedPtr.shared_inv_init hrun
  refine ⟨SharedPtr.inv_noDangling s h, ?_, ?_⟩
  · rcases SharedPtr.step_spec s h op with ⟨s1, hs1, _, _⟩ | he | he
    · exact Or.inl ⟨s1, hs1⟩
    · exact Or.inr (Or.inl he)
    · exact Or.inr (Or.inr he)
  · intro s' hs'
    rcases SharedPtr.step_spec s h op with ⟨s1, hs1, hinv, hfreed⟩ | he | he
    · rw [hs1] at hs'
      have e : s1 = s' := by injection hs'
      subst e
      have hnd := SharedPtr.inv_noDangling s1 hinv
      refine ⟨hfreed, hnd, ?_⟩
      intro new hnew a ha
      obtain ⟨new0, h0, _, hgone, _⟩ := hfreed
      have : new = new0 := List.append_cancel_left (hnew.symm.trans h0)
      subst this
      rintro ⟨j, o, hj, hor⟩
      have hl := hgone a ha
      rcases hor with hp | hc
      · obtain ⟨v, hv⟩ := (hnd j o hj).1 a hp
        simp [hl] at hv
      · obtain ⟨n, hn⟩ := (hnd j o hj).2 a hc
        simp [hl] at hn
    · simp [he] at hs'
    · simp [he] at hs'

end SharedTrace

/-! ## `SharedPtr<T>`: aliasing and dropping, one operation at a time -/

section SharedSteps

variable {T : Type}

theorem SharedPtr.increment_some (s : SState T) (this : Nat) (p : Option Addr)
    (c : Addr) (n : Nat) (ht : lookup this s.objs = some ⟨p, some c⟩)
    (hc : lookup c s.cells = some (.cnt n)) (hn : n + 1 < SIZE_MOD) :
    SharedPtr.incrementRefCount s this
      = .ok ⟨s.objs, update c (.cnt (n + 1)) s.cells, s.freed⟩ := by
  simp [SharedPtr.incrementRefCount, ht, hc, inc_mod n hn]

theorem SharedPtr.increment_none (s : SState T) (this : Nat) (p : Option Addr)
    (ht : lookup this s.objs = some ⟨p, none⟩) :
    SharedPtr.incrementRefCount s this = .ok s := by
  simp [SharedPtr.incrementRefCount, ht]

theorem SharedPtr.copyCtor_some (s : SState T) (this other : Nat) (p : Option Addr)
    (c : Addr) (n : Nat) (ht : lookup this s.objs = none)
    (ho : lookup other s.objs = some ⟨p, some c⟩)
    (hc : lookup c s.cells = some (.cnt n)) (hn : n + 1 < SIZE_MOD) :
    SharedPtr.copyCtor s this other
      = .ok ⟨(this, ⟨p, some c⟩) :: s.objs, update c (.cnt (n + 1)) s.cells, s.freed⟩ := by
  have h := SharedPtr.increment_some (T := T)
    ⟨(this, ⟨p, some c⟩) :: s.objs, s.cells, s.freed⟩ this p c n (by simp) hc hn
  simp only [SharedPtr.copyCtor, ht, ho]
  exact h

theorem SharedPtr.use_count_some (s : SState T) (i : Nat) (o : SharedPtr) (c : Addr)
    (n : Nat) (hi : lookup i s.objs = some o) (hr : o.refCount = some c)
    (hc : lookup c s.cells = some (.cnt n)) : SharedPtr.use_count s i = .ok n := by
  simp [SharedPtr.use_count, hi, hr, hc]

theorem SharedPtr.use_count_none (s : SState T) (i : Nat) (o : SharedPtr)
    (hi : lookup i s.objs = some o) (hr : o.refCount = none) :
    SharedPtr.use_count s i = .ok 0 := by
  simp [SharedPtr.use_count, hi, hr]

/-- C11: in a state reached from the empty state by `SharedPtr` actions, let
`a` be a live object whose counter `c` holds `n`, and let `b` be a free place
on a machine with room for one more object.  Copy-constructing `b` from `a`
succeeds; `b.get()` and `a.get()` are the same pointer, both objects refer to
`c`, the counter holds `n + 1`, `use_count()` is `n + 1` for every live object
that refers to `c`, the free log is unchanged and no other cell changes. -/
theorem SharedPtr.copyCtor_counts (ops : List (SOp T)) (s : SState T)
    (hrun : SharedPtr.run World.init ops = .ok s)
    (a b : Nat) (p : Option Addr) (c : Addr) (n : Nat)
    (ha : lookup a s.objs = some ⟨p, some c⟩)
    (hn : lookup c s.cells = some (.cnt n))
    (hb : lookup b s.objs = none) (hroom : s.objs.length + 1 < SIZE_MOD) :
    ∃ s', SharedPtr.copyCtor s b a = .ok s' ∧
      SharedPtr.get s' b = .ok p ∧ SharedPtr.get s' a = .ok p ∧
      lookup b s'.objs = some ⟨p, some c⟩ ∧ lookup a s'.objs = some ⟨p, some c⟩ ∧
      lookup c s'.cells = some (.cnt (n + 1)) ∧
      (∀ j o, lookup j s'.objs = some o → o.refCount = some c →
        SharedPtr.use_count s' j = .ok (n + 1)) ∧
      s'.freed = s.freed ∧ (∀ x, x ≠ c → lookup x s'.cells = lookup x s.cells) := by
  have h := SharedPtr.shared_run_inv ops _ _ SharedPtr.shared_inv_init hrun
  have hcount := h.count a p c ha
  have hle := SharedPtr.sharers_le s c
  have hfit : n + 1 < SIZE_MOD := by
    rw [hn] at hcount
    simp at hcount
    omega
  have hba : ¬ b = a := by
    rintro rfl
    simp [hb] at ha
  have hcell : lookup c (update c (Cell.cnt (n + 1)) s.cells) = some (.cnt (n + 1)) := by
    simp [lookup_update, hn]
  refine ⟨_, SharedPtr.copyCtor_some s b a p c n hb ha hn hfit, ?_, ?_, ?_, ?_, hcell,
    ?_, rfl, ?_⟩
  · simp [SharedPtr.get]
  · simp [SharedPtr.get, hba, ha]
  · simp
  · simp [hba, ha]
  · intro j o hj hr
    exact SharedPtr.use_count_some _ j o c (n + 1) hj hr hcell
  · intro x hx
    simp [lookup_update, hx]

theorem SharedPtr.copyCtor_counts_witness :
    (∃ s', SharedPtr.copyCtor (T := Int)
        ⟨[(1, ⟨some 100, some 200⟩)], [(200, .cnt 1), (100, .val 42)], []⟩ 2 1 = .ok s' ∧
      SharedPtr.get s' 2 = .ok (some 100) ∧ SharedPtr.get s' 1 = .ok (some 100) ∧
      lookup 2 s'.objs = some ⟨some 100, some 200⟩ ∧
      lookup 1 s'.objs = some ⟨some 100, some 200⟩ ∧
      lookup 200 s'.cells = some (.cnt (1 + 1)) ∧
      (∀ j o, lookup j s'.objs = some o → o.refCount = some 200 →
        SharedPtr.use_count s' j = .ok (1 + 1)) ∧
      s'.freed = [] ∧
      (∀ x, x ≠ 200 → lookup x s'.cells
        = lookup x [(200, Cell.cnt 1), (100, Cell.val (42 : Int))])) ∧
    (∃ s', SharedPtr.copyCtor (T := Int)
        ⟨[(2, ⟨some 100, some 200⟩), (1, ⟨some 100, some 200⟩)],
          [(200, .cnt 2), (100, .val 42)], []⟩ 3 1 = .ok s' ∧
      SharedPtr.get s' 3 = .ok (some 100) ∧ SharedPtr.get s' 1 = .ok (some 100) ∧
      lookup 3 s'.objs = some ⟨some 100, some 200⟩ ∧
      lookup 1 s'.objs = some ⟨some 100, some 200⟩ ∧
      lookup 200 s'.cells = some (.cnt (2 + 1)) ∧
      (∀ j o, lookup j s'.objs = some o → o.refCount = some 200 →
        SharedPtr.use_count s' j = .ok (2 + 1)) ∧
      s'.freed = [] ∧
      (∀ x, x ≠ 200 → lookup x s'.cells
        = lookup x [(200, Cell.cnt 2), (100, Cell.val (42 : Int))])) :=
  ⟨SharedPtr.copyCtor_counts (T := Int) [.construct 1 100 42 200]
      ⟨[(1, ⟨some 100, some 200⟩)], [(200, .cnt 1), (100, .val 42)], []⟩ rfl
      1 2 (some 100) 200 1 rfl rfl rfl (by simp [SIZE_MOD]),
    SharedPtr.copyCtor_counts (T := Int) [.construct 1 100 42 200, .copyConstruct 2 1]
      ⟨[(2, ⟨some 100, some 200⟩), (1, ⟨some 100, some 200⟩)],
        [(200, .cnt 2), (100, .val 42)], []⟩ rfl
      1 3 (some 100) 200 2 rfl rfl rfl (by simp [SIZE_MOD])⟩

theorem SharedPtr.assignNull_more (s : SState T) (this : Nat) (ptr : Option Addr)
    (c : Addr) (n : Nat) (ht : lookup this s.objs = some ⟨ptr, some c⟩)
    (hc : lookup c s.cells = some (.cnt n)) (h2 : 2 ≤ n) (hM : n < SIZE_MOD) :
    SharedPtr.assignNull s this
      = .ok ⟨update this ⟨none, none⟩ s.objs, update c (.cnt (n - 1)) s.cells,
          s.freed⟩ := by
  simp [SharedPtr.assignNull, SharedPtr.decrement_more s this ptr c n ht hc h2 hM]

/-- C12: let `this` hold the value `v` at `p` with a counter `c` that holds a
`size_t` value `n >= 2`.  Assigning `nullptr` to `this` succeeds, frees
nothing, leaves `v` at `p` and `n - 1` in the counter; every other object that
holds `p` and `c` then reports `use_count() == n - 1`, still has `get() == p`
and dereferences to `v`. -/
theorem SharedPtr.assignNull_keeps_others (s : SState T) (this : Nat) (p c : Addr)
    (n : Nat) (v : T) (ht : lookup this s.objs = some ⟨some p, some c⟩)
    (hc : lookup c s.cells = some (.cnt n)) (hv : lookup p s.cells = some (.val v))
    (h2 : 2 ≤ n) (hM : n < SIZE_MOD) :
    ∃ s', SharedPtr.assignNull s this = .ok s' ∧ s'.freed = s.freed ∧
      lookup p s'.cells = some (.val v) ∧ lookup c s'.cells = some (.cnt (n - 1)) ∧
      (∀ j, j ≠ this → lookup j s.objs = some ⟨some p, some c⟩ →
        SharedPtr.use_count s' j = .ok (n - 1) ∧ SharedPtr.deref s' j = .ok v ∧
        SharedPtr.get s' j = .ok (some p)) := by
  have hpc : p ≠ c := by
    rintro rfl
    simp [hc] at hv
  have hcell : lookup c (update c (Cell.cnt (n - 1)) s.cells) = some (.cnt (n - 1)) := by
    simp [lookup_update, hc]
  have hval : lookup p (update c (Cell.cnt (n - 1)) s.cells) = some (.val v) := by
    simp [lookup_update, hpc, hv]
  refine ⟨_, SharedPtr.assignNull_more s this (some p) c n ht hc h2 hM, rfl, hval, hcell,
    ?_⟩
  intro j hj hobj
  have hl : lookup j (update this (⟨none, none⟩ : SharedPtr) s.objs)
      = some ⟨some p, some c⟩ := by
    simp [lookup_update, hj, hobj]
  refine ⟨?_, ?_, ?_⟩
  · exact SharedPtr.use_count_some _ j _ c (n - 1) hl rfl hcell
  · simp [SharedPtr.deref, hl, hval]
  · simp [SharedPtr.get, hl]

theorem SharedPtr.assignNull_keeps_others_witness :
    ∃ s', SharedPtr.assignNull (T := Int)
        ⟨[(3, ⟨some 100, some 200⟩), (2, ⟨some 100, some 200⟩),
            (1, ⟨some 100, some 200⟩)], [(200, .cnt 3), (100, .val 42)], []⟩ 1 = .ok s' ∧
      s'.freed = [] ∧
      lookup 100 s'.cells = some (.val 42) ∧ lookup 200 s'.cells = some (.cnt (3 - 1)) ∧
      (∀ j, j ≠ 1 →
        lookup j [(3, (⟨some 100, some 200⟩ : SharedPtr)), (2, ⟨some 100, some 200⟩),
            (1, ⟨some 100, some 200⟩)] = some ⟨some 100, some 200⟩ →
        SharedPtr.use_count s' j = .ok (3 - 1) ∧ SharedPtr.deref s' j = .ok 42 ∧
        SharedPtr.get s' j = .ok (some 100)) :=
  SharedPtr.assignNull_keeps_others (T := Int)
    ⟨[(3, ⟨some 100, some 200⟩), (2, ⟨some 100, some 200⟩), (1, ⟨some 100, some 200⟩)],
      [(200, .cnt 3), (100, .val 42)], []⟩ 1 100 200 3 42 rfl rfl rfl (by decide)
    (by simp [SIZE_MOD])

theorem SharedPtr.decrement_last (s : SState T) (this : Nat) (ptr : Option Addr)
    (c : Addr) (ht : lookup this s.objs = some ⟨ptr, some c⟩)
    (hc : lookup c s.cells = some (.cnt 1))
    (hp : ∀ p, ptr = some p → ∃ v, lookup p s.cells = some (.val v)) :
    ∃ cells', SharedPtr.decrementRefCount s this
        = .ok ⟨s.objs, cells', s.freed ++ ptr.toList ++ [c]⟩ ∧
      lookup c cells' = none ∧
      (∀ p, ptr = some p → lookup p cells' = none ∧ p ≠ c) ∧
      (∀ x, x ≠ c → ptr ≠ some x → lookup x cells' = lookup x s.cells) := by
  cases ptr with
  | none =>
    refine ⟨remove c (update c (.cnt 0) s.cells), ?_, ?_, ?_, ?_⟩
    · simpa using SharedPtr.decrement_last_null s this c ht hc
    · simp [lookup_remove]
    · intro p hp'
      simp at hp'
    · intro x hx _
      simp [lookup_remove, lookup_update, hx]
  | some p =>
    obtain ⟨v, hv⟩ := hp p rfl
    have hpc : p ≠ c := by
      rintro rfl
      simp [hc] at hv
    refine ⟨remove c (remove p (update c (.cnt 0) s.cells)), ?_, ?_, ?_, ?_⟩
    · simpa using SharedPtr.decrement_last_val s this p c v ht hc hv
    · simp [lookup_remove]
    · intro q hq
      simp at hq
      subst hq
      simp [lookup_remove, hpc]
    · intro x hx hxp
      have hxp' : x ≠ p := fun e => hxp (by simp [e])
      simp [lookup_remove, lookup_update, hx, hxp']

/-- C15: self copy assignment `a = a` on a live object returns the state it
was given, whatever the object holds: `use_count()`, `get()`, the heap and the
free log are as before. -/
theorem SharedPtr.copyAssign_self (s : SState T) (a : Nat) (o : SharedPtr)
    (ha : lookup a s.objs = some o) :
    SharedPtr.copyAssign s a a = .ok s ∧
    ∀ s', SharedPtr.copyAssign s a a = .ok s' →
      SharedPtr.use_count s' a = SharedPtr.use_count s a ∧
      SharedPtr.get s' a = SharedPtr.get s a ∧
      s'.cells = s.cells ∧ s'.freed = s.freed := by
  have h : SharedPtr.copyAssign s a a = .ok s := by
    simp [SharedPtr.copyAssign, ha]
  refine ⟨h, ?_⟩
  intro s' hs'
  rw [h] at hs'
  have e : s = s' := by injection hs'
  subst e
  exact ⟨rfl, rfl, rfl, rfl⟩

theorem SharedPtr.copyAssign_self_witness :
    SharedPtr.copyAssign (T := Int)
        ⟨[(1, ⟨some 100, some 200⟩)], [(200, .cnt 1), (100, .val 42)], []⟩ 1 1
      = .ok ⟨[(1, ⟨some 100, some 200⟩)], [(200, .cnt 1), (100, .val 42)], []⟩ :=
  (SharedPtr.copyAssign_self (T := Int)
    ⟨[(1, ⟨some 100, some 200⟩)], [(200, .cnt 1), (100, .val 42)], []⟩ 1
    ⟨some 100, some 200⟩ rfl).1

/-- C20: let two different live objects `a` and `b` hold the same pointer and
the same counter `c`, which holds a `size_t` value `n >= 2`.  Copy assignment
`a = b` returns the state it was given: the counter holds `n`, `a.get()` and
`b.get()` are as before, and nothing is freed; the decrement in between
leaves `n - 1`, which is not 0. -/
theorem SharedPtr.copyAssign_same_counter (s : SState T) (a b : Nat) (p : Option Addr)
    (c : Addr) (n : Nat) (hne : a ≠ b)
    (ha : lookup a s.objs = some ⟨p, some c⟩) (hb : lookup b s.objs = some ⟨p, some c⟩)
    (hc : lookup c s.cells = some (.cnt n)) (h2 : 2 ≤ n) (hM : n < SIZE_MOD) :
    SharedPtr.copyAssign s a b = .ok s ∧
    SharedPtr.decrementRefCount s a
      = .ok ⟨s.objs, update c (.cnt (n - 1)) s.cells, s.freed⟩ ∧ n - 1 ≠ 0 ∧
    ∀ s', SharedPtr.copyAssign s a b = .ok s' →
      lookup c s'.cells = some (.cnt n) ∧
      SharedPtr.use_count s' a = .ok n ∧ SharedPtr.use_count s' b = .ok n ∧
      SharedPtr.get s' a = .ok p ∧ SharedPtr.get s' b = .ok p ∧
      s'.freed = s.freed ∧ s'.cells = s.cells := by
  have hdec := SharedPtr.decrement_more s a p c n ha hc h2 hM
  have hinc := SharedPtr.increment_some (T := T)
    ⟨s.objs, update c (.cnt (n - 1)) s.cells, s.freed⟩ a p c (n - 1) ha
    (by simp [lookup_update, hc]) (by omega)
  have hn : n - 1 + 1 = n := by omega
  have h : SharedPtr.copyAssign s a b = .ok s := by
    simp only [SharedPtr.copyAssign, ha, hb, ne_eq, hne, not_false_eq_true, if_true, hdec,
      update_eq_self _ _ _ ha]
    rw [hinc]
    simp [update_update, hn, update_eq_self _ _ _ hc]
  refine ⟨h, hdec, by omega, ?_⟩
  intro s' hs'
  rw [h] at hs'
  have e : s = s' := by injection hs'
  subst e
  refine ⟨hc, ?_, ?_, ?_, ?_, rfl, rfl⟩
  · exact SharedPtr.use_count_some s a _ c n ha rfl hc
  · exact SharedPtr.use_count_some s b _ c n hb rfl hc
  · simp [SharedPtr.get, ha]
  · simp [SharedPtr.get, hb]

theorem SharedPtr.copyAssign_same_counter_witness :
    SharedPtr.copyAssign (T := Int)
        ⟨[(2, ⟨some 100, some 200⟩), (1, ⟨some 100, some 200⟩)],
          [(200, .cnt 2), (100, .val 42)], []⟩ 1 2
      = .ok ⟨[(2, ⟨some 100, some 200⟩), (1, ⟨some 100, some 200⟩)],
          [(200, .cnt 2), (100, .val 42)], []⟩ :=
  (SharedPtr.copyAssign_same_counter (T := Int)
    ⟨[(2, ⟨some 100, some 200⟩), (1, ⟨some 100, some 200⟩)],
      [(200, .cnt 2), (100, .val 42)], []⟩ 1 2 (some 100) 200 2 (by decide) rfl rfl rfl
    (by decide) (by simp [SIZE_MOD])).1

theorem SharedPtr.decrement_cases (s : SState T) (h : SharedPtr.Inv s) (this : Nat)
    (ptr rc : Option Addr) (ht : lookup this s.objs = some ⟨ptr, rc⟩) :
    ∃ cells1 freed1,
      SharedPtr.decrementRefCount s this = .ok ⟨s.objs, cells1, freed1⟩ ∧
      (rc = none → freed1 = s.freed) ∧
      (∀ c m, rc = some c → lookup c s.cells = some (.cnt m) →
        1 ≤ m ∧ m < SIZE_MOD ∧
        (m = 1 → freed1 = s.freed ++ ptr.toList ++ [c] ∧ lookup c cells1 = none ∧
          ∀ p, ptr = some p → lookup p cells1 = none) ∧
        (m ≠ 1 → freed1 = s.freed ∧ lookup c cells1 = some (.cnt (m - 1)))) ∧
      (∀ x n, lookup x s.cells = some (.cnt n) → rc ≠ some x →
        lookup x cells1 = some (.cnt n)) := by
  cases rc with
  | none =>
    refine ⟨s.cells, s.freed, SharedPtr.decrement_none s this ptr ht, fun _ => rfl, ?_, ?_⟩
    · intro c m hrc
      simp at hrc
    · intro x n hx _
      exact hx
  | some c =>
    have hcount := h.count this ptr c ht
    have hpos := SharedPtr.sharers_pos s this ptr c ht
    have hM : SharedPtr.sharers s c < SIZE_MOD :=
      lt_of_le_of_lt (SharedPtr.sharers_le s c) h.room
    by_cases h1 : SharedPtr.sharers s c = 1
    · have hc1 : lookup c s.cells = some (.cnt 1) := by rw [← h1]; exact hcount
      have hp : ∀ p, ptr = some p → ∃ v, lookup p s.cells = some (.val v) := by
        intro p hp
        subst hp
        exact (h.live this p (some c) ht).1
      obtain ⟨cells', hdec, hgc, hgp, hkeep⟩ :=
        SharedPtr.decrement_last s this ptr c ht hc1 hp
      refine ⟨cells', _, hdec, ?_, ?_, ?_⟩
      · intro hrc
        simp at hrc
      · intro c' m hrc hm
        simp at hrc
        subst hrc
        rw [hc1] at hm
        simp at hm
        subst hm
        refine ⟨le_refl _, by simp [SIZE_MOD], ?_, ?_⟩
        · intro _
          exact ⟨rfl, hgc, fun p hp' => (hgp p hp').1⟩
        · intro hne
          exact absurd rfl hne
      · intro x n hx hne
        have hxc : x ≠ c := fun e => hne (by simp [e])
        have hxp : ptr ≠ some x := by
          intro e
          obtain ⟨v, hv⟩ := hp x e
          simp [hx] at hv
        rw [hkeep x hxc hxp]
        exact hx
    · have h2 : 2 ≤ SharedPtr.sharers s c := by omega
      refine ⟨update c (.cnt (SharedPtr.sharers s c - 1)) s.cells, s.freed,
        SharedPtr.decrement_more s this ptr c _ ht hcount h2 hM, ?_, ?_, ?_⟩
      · intro hrc
        simp at hrc
      · intro c' m hrc hm
        simp at hrc
        subst hrc
        rw [hcount] at hm
        simp at hm
        subst hm
        refine ⟨hpos, hM, ?_, ?_⟩
        · intro e
          exact absurd e h1
        · intro _
          exact ⟨rfl, by simp [lookup_update, hcount]⟩
      · intro x n hx hne
        have hxc : x ≠ c := fun e => hne (by simp [e])
        simpa [lookup_update, hxc] using hx

theorem SharedPtr.copyAssign_steps (s : SState T) (a b : Nat) (oa : SharedPtr)
    (pb rb : Option Addr) (hne : a ≠ b) (ha : lookup a s.objs = some oa)
    (hb : lookup b s.objs = some ⟨pb, rb⟩)
    (cells1 : List (Addr × Cell T)) (freed1 : List Addr)
    (hdec : SharedPtr.decrementRefCount s a = .ok ⟨s.objs, cells1, freed1⟩) :
    SharedPtr.copyAssign s a b
      = SharedPtr.incrementRefCount
          (⟨update a ⟨pb, rb⟩ s.objs, cells1, freed1⟩ : SState T) a := by
  simp [SharedPtr.copyAssign, ha, hb, hne, hdec]

/-- For a pointee without smart-pointer members: in a state reached from the empty state by `SharedPtr` actions, let
`a` and `b` be two different live objects whose counters differ (either may
have none).  Copy assignment `a = b` succeeds.  When the old counter of `a`
held `m`, it holds `m - 1` afterwards and nothing is freed, except that for
`m = 1` the old pointer of `a` (when not null) and the old counter are freed
and leave the heap.  Afterwards `a` and `b` have the same pointer and the
same counter member; when `b` had a counter holding `n`, it now holds `n + 1`
and both report `use_count() == n + 1`; when `b` had none, `a` reports
`use_count() == 0`. -/
theorem SharedPtr.copyAssign_distinct_memberless (ops : List (SOp T)) (s : SState T)
    (hrun : SharedPtr.run World.init ops = .ok s)
    (a b : Nat) (pa ra pb rb : Option Addr) (hne : a ≠ b)
    (ha : lookup a s.objs = some ⟨pa, ra⟩) (hb : lookup b s.objs = some ⟨pb, rb⟩)
    (hdist : ∀ c, ra = some c → rb ≠ some c) :
    ∃ s', SharedPtr.copyAssign s a b = .ok s' ∧
      SharedPtr.get s' a = .ok pb ∧ SharedPtr.get s' b = .ok pb ∧
      lookup a s'.objs = some ⟨pb, rb⟩ ∧ lookup b s'.objs = some ⟨pb, rb⟩ ∧
      (ra = none → s'.freed = s.freed) ∧
      (∀ ca m, ra = some ca → lookup ca s.cells = some (.cnt m) →
        (m = 1 → s'.freed = s.freed ++ pa.toList ++ [ca] ∧ lookup ca s'.cells = none ∧
          ∀ p, pa = some p → lookup p s'.cells = none) ∧
        (m ≠ 1 → s'.freed = s.freed ∧ lookup ca s'.cells = some (.cnt (m - 1)))) ∧
      (rb = none → SharedPtr.use_count s' a = .ok 0) ∧
      (∀ cb n, rb = some cb → lookup cb s.cells = some (.cnt n) →
        lookup cb s'.cells = some (.cnt (n + 1)) ∧
        SharedPtr.use_count s' a = .ok (n + 1) ∧
        SharedPtr.use_count s' b = .ok (n + 1)) := by
  have h := SharedPtr.shared_run_inv ops _ _ SharedPtr.shared_inv_init hrun
  obtain ⟨cells1, freed1, hdec, hnone, hsome, hkeep⟩ :=
    SharedPtr.decrement_cases s h a pa ra ha
  have hsteps := SharedPtr.copyAssign_steps s a b ⟨pa, ra⟩ pb rb hne ha hb cells1 freed1 hdec
  have hba : b ≠ a := fun e => hne e.symm
  have hla : lookup a (update a (⟨pb, rb⟩ : SharedPtr) s.objs) = some ⟨pb, rb⟩ := by
    simp [lookup_update, ha]
  have hlb : lookup b (update a (⟨pb, rb⟩ : SharedPtr) s.objs) = some ⟨pb, rb⟩ := by
    simp [lookup_update, hba, hb]
  cases rb with
  | none =>
    rw [SharedPtr.increment_none _ a pb hla] at hsteps
    refine ⟨_, hsteps, ?_, ?_, hla, hlb, hnone, ?_, ?_, ?_⟩
    · simp [SharedPtr.get, hla]
    · simp [SharedPtr.get, hlb]
    · intro ca m hra hm
      obtain ⟨_, _, hone, hmore⟩ := hsome ca m hra hm
      exact ⟨hone, hmore⟩
    · intro _
      exact SharedPtr.use_count_none _ a _ hla rfl
    · intro cb n hrb
      simp at hrb
  | some cb =>
    have hcb := h.count b pb cb hb
    have hra : ra ≠ some cb := fun e => hdist cb e rfl
    have hcb1 := hkeep cb _ hcb hra
    have hsh := SharedPtr.sharers_update s.objs s.cells s.cells s.freed s.freed a
      ⟨pa, ra⟩ ⟨pb, some cb⟩ cb ha
    have hle := SharedPtr.sharers_le (T := T)
      ⟨update a ⟨pb, some cb⟩ s.objs, s.cells, s.freed⟩ cb
    have e : SharedPtr.sharers (T := T) ⟨s.objs, s.cells, s.freed⟩ cb
        = SharedPtr.sharers s cb := rfl
    simp only [hra, if_false, Nat.add_zero, if_true, e] at hsh
    simp only [length_update] at hle
    have hroom := h.room
    have hfit : SharedPtr.sharers s cb + 1 < SIZE_MOD := by omega
    rw [SharedPtr.increment_some _ a pb cb _ hla hcb1 hfit] at hsteps
    have hcell : lookup cb (update cb (Cell.cnt (SharedPtr.sharers s cb + 1)) cells1)
        = some (.cnt (SharedPtr.sharers s cb + 1)) := by
      simp [lookup_update, hcb1]
    refine ⟨_, hsteps, ?_, ?_, hla, hlb, ?_, ?_, ?_, ?_⟩
    · simp [SharedPtr.get, hla]
    · simp [SharedPtr.get, hlb]
    · intro hr
      exact hnone hr
    · intro ca m hra' hm
      obtain ⟨_, _, hone, hmore⟩ := hsome ca m hra' hm
      have hcc : ca ≠ cb := by
        rintro rfl
        exact hra hra'
      constructor
      · intro e1
        obtain ⟨hf, hg, hgp⟩ := hone e1
        refine ⟨hf, by simpa [lookup_update, hcc] using hg, ?_⟩
        intro p hp
        have hpc : p ≠ cb := by
          rintro rfl
          subst hp
          obtain ⟨v, hv⟩ := (h.live a p ra ha).1
          simp [hcb] at hv
        simpa [lookup_update, hpc] using hgp p hp
      · intro e1
        obtain ⟨hf, hg⟩ := hmore e1
        exact ⟨hf, by simpa [lookup_update, hcc] using hg⟩
    · intro hr
      simp at hr
    · intro cb' n hrb hn
      simp at hrb
      subst hrb
      rw [hcb] at hn
      simp at hn
      subst hn
      exact ⟨hcell, SharedPtr.use_count_some _ a _ cb _ hla rfl hcell,
        SharedPtr.use_count_some _ b _ cb _ hlb rfl hcell⟩

/-- C19: give one live `T` at `p` to the constructors of two different
objects `a` and `b`.  Each gets a counter of its own and reports
`use_count() == 1`, although both have `get() == p`.  Destroying `a` frees
`p` and the counter of `a`; `b` still holds `p` with `use_count() == 1`, and
destroying `b` brings its counter to 0 and runs `delete` on `p` a second
time, which is the double free the second destructor stops on. -/
theorem SharedPtr.two_ctors_double_free (s : SState T) (a b : Nat) (p c1 c2 : Addr)
    (v : T) (hab : a ≠ b) (ha : lookup a s.objs = none) (hb : lookup b s.objs = none)
    (hp : lookup p s.cells = some (.val v))
    (h1 : lookup c1 s.cells = none) (h2 : lookup c2 s.cells = none) (h12 : c1 ≠ c2) :
    ∃ s1 s2 s3, SharedPtr.ctor s a (some p) c1 = .ok s1 ∧
      SharedPtr.ctor s1 b (some p) c2 = .ok s2 ∧
      SharedPtr.get s2 a = .ok (some p) ∧ SharedPtr.get s2 b = .ok (some p) ∧
      lookup a s2.objs = some ⟨some p, some c1⟩ ∧
      lookup b s2.objs = some ⟨some p, some c2⟩ ∧
      SharedPtr.use_count s2 a = .ok 1 ∧ SharedPtr.use_count s2 b = .ok 1 ∧
      SharedPtr.dtor s2 a = .ok s3 ∧ s3.freed = s.freed ++ [p, c1] ∧
      lookup p s3.cells = none ∧
      SharedPtr.get s3 b = .ok (some p) ∧ SharedPtr.use_count s3 b = .ok 1 ∧
      World.deleteVal (⟨s3.objs, update c2 (.cnt 0) s3.cells, s3.freed⟩ : SState T) (some p)
        = .error .invalidFree ∧
      SharedPtr.dtor s3 b = .error .invalidFree := by
  have hba : b ≠ a := fun e => hab e.symm
  have h21 : c2 ≠ c1 := fun e => h12 e.symm
  have hpc1 : p ≠ c1 := by
    rintro rfl
    simp [h1] at hp
  have hpc2 : p ≠ c2 := by
    rintro rfl
    simp [h2] at hp
  have hc1p : c1 ≠ p := fun e => hpc1 e.symm
  have hc2p : c2 ≠ p := fun e => hpc2 e.symm
  have hd := SharedPtr.decrement_last_val (T := T)
    ⟨(b, ⟨some p, some c2⟩) :: (a, ⟨some p, some c1⟩) :: s.objs,
      (c2, .cnt 1) :: (c1, .cnt 1) :: s.cells, s.freed⟩ a p c1 v
    (by simp [hba]) (by simp [h21]) (by simp [hc2p, hc1p, hp])
  have h0 : (1 + (SIZE_MOD - 1)) % SIZE_MOD = 0 := by simp [SIZE_MOD]
  refine ⟨⟨(a, ⟨some p, some c1⟩) :: s.objs, (c1, .cnt 1) :: s.cells, s.freed⟩,
    ⟨(b, ⟨some p, some c2⟩) :: (a, ⟨some p, some c1⟩) :: s.objs,
      (c2, .cnt 1) :: (c1, .cnt 1) :: s.cells, s.freed⟩,
    ⟨remove a ((b, ⟨some p, some c2⟩) :: (a, ⟨some p, some c1⟩) :: s.objs),
      remove c1 (remove p (update c1 (.cnt 0) ((c2, .cnt 1) :: (c1, .cnt 1) :: s.cells))),
      s.freed ++ [p] ++ [c1]⟩, ?_, ?_, ?_, ?_, ?_, ?_, ?_, ?_, ?_, ?_, ?_, ?_, ?_, ?_, ?_⟩
  · simp [SharedPtr.ctor, ha, World.alloc, h1]
  · simp [SharedPtr.ctor, hab, hb, World.alloc, h12, h2]
  · simp [SharedPtr.get, hba]
  · simp [SharedPtr.get]
  · simp [hba]
  · simp
  · simp [SharedPtr.use_count, hba, h21]
  · simp [SharedPtr.use_count]
  · simp [SharedPtr.dtor, hd]
  · simp
  · simp [lookup_remove, hpc1]
  · simp [SharedPtr.get, lookup_remove, hba]
  · simp [SharedPtr.use_count, lookup_remove, lookup_update, hba, h21, hc2p]
  · simp [World.deleteVal, lookup_update, lookup_remove, hpc1, hpc2]
  · simp [SharedPtr.dtor, SharedPtr.decrementRefCount, World.deleteVal, lookup_update,
      lookup_remove, hba, h21, hc2p, hpc1, hpc2, h0]

theorem SharedPtr.two_ctors_double_free_witness :
    ∃ s3, SharedPtr.dtor (T := Int)
        ⟨[(2, ⟨some 100, some 201⟩), (1, ⟨some 100, some 200⟩)],
          [(201, .cnt 1), (200, .cnt 1), (100, .val 42)], []⟩ 1 = .ok s3 ∧
      s3.freed = [100, 200] ∧ SharedPtr.dtor s3 2 = .error .invalidFree := by
  obtain ⟨s1, s2, s3, e1, e2, _, _, _, _, _, _, e3, e4, _, _, _, _, e5⟩ :=
    SharedPtr.two_ctors_double_free (T := Int) ⟨[], [(100, .val 42)], []⟩ 1 2 100 200 201 42
      (by decide) rfl rfl rfl rfl rfl (by decide)
  have f1 : s1 = ⟨[(1, ⟨some 100, some 200⟩)], [(200, .cnt 1), (100, .val 42)], []⟩ := by
    have : SharedPtr.ctor (T := Int) ⟨[], [(100, .val 42)], []⟩ 1 (some 100) 200
        = .ok ⟨[(1, ⟨some 100, some 200⟩)], [(200, .cnt 1), (100, .val 42)], []⟩ := rfl
    rw [this] at e1
    injection e1 with e1
    exact e1.symm
  subst f1
  have f2 : s2 = ⟨[(2, ⟨some 100, some 201⟩), (1, ⟨some 100, some 200⟩)],
      [(201, .cnt 1), (200, .cnt 1), (100, .val 42)], []⟩ := by
    have : SharedPtr.ctor (T := Int)
          ⟨[(1, ⟨some 100, some 200⟩)], [(200, .cnt 1), (100, .val 42)], []⟩ 2 (some 100) 201
        = .ok ⟨[(2, ⟨some 100, some 201⟩), (1, ⟨some 100, some 200⟩)],
            [(201, .cnt 1), (200, .cnt 1), (100, .val 42)], []⟩ := rfl
    rw [this] at e2
    injection e2 with e2
    exact e2.symm
  subst f2
  exact ⟨s3, e3, by simpa using e4, e5⟩

end SharedSteps

/-! ## Pointees that own smart pointers: what `delete` sets off -/

section OwningPointees

variable {T : Type}

theorem World.deleteVal_objs {O : Type} (w w1 : World O T) (p : Option Addr)
    (h : World.deleteVal w p = .ok w1) : w1.objs = w.objs := by
  cases p with
  | none =>
    simp [World.deleteVal] at h
    subst h
    rfl
  | some a =>
    cases hl : lookup a w.cells with
    | none => simp [World.deleteVal, hl] at h
    | some cell =>
      cases cell with
      | val v =>
        simp [World.deleteVal, hl] at h
        subst h
        rfl
      | cnt n => simp [World.deleteVal, hl] at h

theorem World.deleteOwning_memberless {O : Type} (members : T → List Nat)
    (destroy : World O T → Nat → Except Fault (World O T)) (w : World O T)
    (p : Option Addr)
    (hplain : ∀ a v, p = some a → lookup a w.cells = some (.val v) → members v = []) :
    World.deleteOwning members destroy w p = World.deleteVal w p := by
  cases p with
  | none => rfl
  | some a =>
    cases h : lookup a w.cells with
    | none => simp [World.deleteOwning, World.deleteVal, h]
    | some cell =>
      cases cell with
      | val v =>
        simp [World.deleteOwning, World.deleteVal, h, hplain a v rfl h, World.destroyAll]
      | cnt n => simp [World.deleteOwning, World.deleteVal, h]

theorem UniquePtr.owning_reset_memberless (members : T → List Nat) (fuel : Nat)
    (s : UState T) (this : Nat)
    (hplain : ∀ p v, lookup this s.objs = some ⟨some p⟩ →
      lookup p s.cells = some (.val v) → members v = []) :
    Owning.UniquePtr.reset members (fuel + 1) s this = UniquePtr.reset s this := by
  cases ht : lookup this s.objs with
  | none => simp [Owning.UniquePtr.reset, UniquePtr.reset, ht]
  | some o =>
    obtain ⟨ptr⟩ := o
    cases ptr with
    | none => simp [Owning.UniquePtr.reset, UniquePtr.reset, ht]
    | some p =>
      simp only [Owning.UniquePtr.reset, UniquePtr.reset, ht]
      rw [World.deleteOwning_memberless members _ s (some p)
        (fun a v ha hv => by cases ha; exact hplain p v ht hv)]
      cases hd : World.deleteVal s (some p) with
      | error e => rfl
      | ok s1 =>
        have := World.deleteVal_objs s s1 (some p) hd
        simp [this, ht]

theorem UniquePtr.owning_dtor_agrees (members : T → List Nat) (fuel : Nat)
    (s : UState T) (this : Nat)
    (hplain : ∀ p v, lookup this s.objs = some ⟨some p⟩ →
      lookup p s.cells = some (.val v) → members v = []) :
    Owning.UniquePtr.dtor members (fuel + 1) s this = UniquePtr.dtor s this := by
  simp only [Owning.UniquePtr.dtor, UniquePtr.dtor,
    UniquePtr.owning_reset_memberless members fuel s this hplain]

theorem SharedPtr.owning_decrement_memberless (members : T → List Nat) (fuel : Nat)
    (s : SState T) (this : Nat)
    (hplain : ∀ p rc v, lookup this s.objs = some ⟨some p, rc⟩ →
      lookup p s.cells = some (.val v) → members v = []) :
    Owning.SharedPtr.decrementRefCount members (fuel + 1) s this
      = SharedPtr.decrementRefCount s this := by
  cases ht : lookup this s.objs with
  | none => simp [Owning.SharedPtr.decrementRefCount, SharedPtr.decrementRefCount, ht]
  | some o =>
    obtain ⟨ptr, rc⟩ := o
    cases rc with
    | none => simp [Owning.SharedPtr.decrementRefCount, SharedPtr.decrementRefCount, ht]
    | some c =>
      cases hc : lookup c s.cells with
      | none =>
        simp [Owning.SharedPtr.decrementRefCount, SharedPtr.decrementRefCount, ht, hc]
      | some cell =>
        cases cell with
        | val v =>
          simp [Owning.SharedPtr.decrementRefCount, SharedPtr.decrementRefCount, ht, hc]
        | cnt n =>
          simp only [Owning.SharedPtr.decrementRefCount, SharedPtr.decrementRefCount, ht, hc]
          rw [World.deleteOwning_memberless members _ _ ptr]
          intro a v ha hv
          subst ha
          have hac : a ≠ c := by
            rintro rfl
            simp [lookup_update, hc] at hv
          simp only [lookup_update, hac, if_false] at hv
          exact hplain a (some c) v ht hv

theorem UniquePtr.owning_dtor_after_members (members : T → List Nat) (fuel : Nat)
    (s s1 : UState T) (this : Nat) (p : Addr) (v v1 : T) (o1 : UniquePtr)
    (hobj : lookup this s.objs = some ⟨some p⟩)
    (hv : lookup p s.cells = some (.val v))
    (hdes : World.destroyAll (Owning.UniquePtr.dtor members fuel) s (members v) = .ok s1)
    (hp1 : lookup p s1.cells = some (.val v1))
    (ht1 : lookup this s1.objs = some o1) :
    Owning.UniquePtr.dtor members (fuel + 1) s this
      = .ok ⟨remove this (update this ⟨none⟩ s1.objs), remove p s1.cells,
          s1.freed ++ [p]⟩ := by
  have hdes' : World.destroyAll
      (fun w m =>
        match Owning.UniquePtr.reset members fuel w m with
        | .error e => .error e
        | .ok w1 => .ok { w1 with objs := remove m w1.objs })
      s (members v) = .ok s1 := hdes
  simp only [Owning.UniquePtr.dtor, Owning.UniquePtr.reset, World.deleteOwning, hobj, hv,
    hdes', hp1, ht1]

/-- C4, amended: let a live `UniquePtr` hold a live `T` at `p`; destroying it
runs `~T()` and then gives `p` back.  When the `T` has no smart-pointer
member, destroying succeeds, adds exactly one free event, for `p`, takes `p`
off the heap and touches no other allocation.  When it has such members and
their destructors complete, leaving `p` allocated and the `UniquePtr` alive,
destroying succeeds and adds, after what those destructors freed, exactly one
free event, for `p`, and takes no other cell off the heap at that step.
Destroying an empty `UniquePtr` frees nothing. -/
theorem UniquePtr.owning_dtor_frees_pointee_once (members : T → List Nat) (fuel : Nat)
    (s : UState T) (this : Nat) (o : UniquePtr) (hobj : lookup this s.objs = some o) :
    (∀ p v, o.pointer = some p → lookup p s.cells = some (.val v) → members v = [] →
      ∃ s', Owning.UniquePtr.dtor members (fuel + 1) s this = .ok s' ∧
        s'.freed = s.freed ++ [p] ∧ lookup p s'.cells = none ∧
        (∀ q, q ≠ p → lookup q s'.cells = lookup q s.cells) ∧
        lookup this s'.objs = none) ∧
    (∀ p v s1, o.pointer = some p → lookup p s.cells = some (.val v) →
      World.destroyAll (Owning.UniquePtr.dtor members fuel) s (members v) = .ok s1 →
      (∃ v1, lookup p s1.cells = some (.val v1)) → (∃ o1, lookup this s1.objs = some o1) →
      ∃ s', Owning.UniquePtr.dtor members (fuel + 1) s this = .ok s' ∧
        s'.freed = s1.freed ++ [p] ∧ lookup p s'.cells = none ∧
        (∀ q, q ≠ p → lookup q s'.cells = lookup q s1.cells) ∧
        lookup this s'.objs = none) ∧
    (o.pointer = none →
      ∃ s', Owning.UniquePtr.dtor members (fuel + 1) s this = .ok s' ∧
        s'.freed = s.freed ∧ s'.cells = s.cells ∧ lookup this s'.objs = none) := by
  obtain ⟨ptr⟩ := o
  have gen : ∀ p v s1, ptr = some p → lookup p s.cells = some (.val v) →
      World.destroyAll (Owning.UniquePtr.dtor members fuel) s (members v) = .ok s1 →
      (∃ v1, lookup p s1.cells = some (.val v1)) → (∃ o1, lookup this s1.objs = some o1) →
      ∃ s', Owning.UniquePtr.dtor members (fuel + 1) s this = .ok s' ∧
        s'.freed = s1.freed ++ [p] ∧ lookup p s'.cells = none ∧
        (∀ q, q ≠ p → lookup q s'.cells = lookup q s1.cells) ∧
        lookup this s'.objs = none := by
    intro p v s1 hp hv hdes hp1 ht1
    subst hp
    obtain ⟨v1, hp1⟩ := hp1
    obtain ⟨o1, ht1⟩ := ht1
    refine ⟨_, UniquePtr.owning_dtor_after_members members fuel s s1 this p v v1 o1 hobj hv
      hdes hp1 ht1, rfl, ?_, ?_, ?_⟩
    · simp [lookup_remove]
    · intro q hq
      simp [lookup_remove, hq]
    · simp [lookup_remove]
  refine ⟨?_, gen, ?_⟩
  · intro p v hp hv hm
    refine gen p v s hp hv ?_ ⟨v, hv⟩ ⟨_, hobj⟩
    rw [hm]
    rfl
  · intro hp
    simp only at hp
    subst hp
    rw [UniquePtr.owning_dtor_agrees members fuel s this (fun p v h => by simp [hobj] at h)]
    refine ⟨_, UniquePtr.dtor_empty s this hobj, rfl, rfl, ?_⟩
    simp [lookup_remove]

theorem UniquePtr.owning_dtor_frees_pointee_once_witness :
    ∃ s', Owning.UniquePtr.dtor (T := Int) (fun _ => []) (0 + 1)
        ⟨[(1, ⟨some 100⟩)], [(100, .val 42), (101, .val 7)], []⟩ 1 = .ok s' ∧
      s'.freed = [] ++ [100] ∧ lookup 100 s'.cells = none ∧
      (∀ q, q ≠ 100 → lookup q s'.cells
        = lookup q [(100, Cell.val (42 : Int)), (101, .val 7)]) ∧
      lookup 1 s'.objs = none :=
  (UniquePtr.owning_dtor_frees_pointee_once (T := Int) (fun _ => []) 0
    ⟨[(1, ⟨some 100⟩)], [(100, .val 42), (101, .val 7)], []⟩ 1 ⟨some 100⟩ rfl).1
    100 42 rfl rfl rfl

/-- C4 as stated fails: with `struct Node { UniquePtr<Node> next; };` and a
list of two nodes, destroying the `UniquePtr` that holds the first node at 100
also frees the second node at 101, which was allocated until then. -/
theorem UniquePtr.owning_dtor_frees_chain :
    ∃ s s', Owning.UniquePtr.listOfTwo = .ok s ∧
      UniquePtr.get s 1 = .ok (some 100) ∧
      lookup 101 s.cells = some (.val ⟨11⟩) ∧
      Owning.UniquePtr.dtor Node.members 8 s 1 = .ok s' ∧
      s'.freed = s.freed ++ [101, 100] ∧ lookup 101 s'.cells = none :=
  ⟨_, _, rfl, rfl, rfl, rfl, rfl, rfl⟩

/-- C2, at the failing input: after
`SharedPtr<Node> a(new Node); SharedPtr<Node> t(new Node); a->next = t; t = nullptr;`
the object `a` is the only owner of the first node and `a->next` the only
owner of the second.  In `a = a->next` the decrement step brings the counter
of `a` to 0 and deletes the first node, whose destructor destroys `a->next`;
the assignment then reads the members of that destroyed object. -/
theorem SharedPtr.owning_copyAssign_reads_destroyed_source :
    ∃ s s1, Owning.SharedPtr.listOfTwo = .ok s ∧
      SharedPtr.get s 1 = .ok (some 100) ∧ SharedPtr.use_count s 1 = .ok 1 ∧
      SharedPtr.get s 10 = .ok (some 101) ∧ SharedPtr.use_count s 10 = .ok 1 ∧
      lookup 100 s.cells = some (.val ⟨10⟩) ∧
      Owning.SharedPtr.decrementRefCount Node.members 8 s 1 = .ok s1 ∧
      lookup 10 s1.objs = none ∧ SharedPtr.get s1 10 = .error .badObject ∧
      Owning.SharedPtr.copyAssign Node.members 8 s 1 10 = .error .badObject :=
  ⟨_, _, rfl, rfl, rfl, rfl, rfl, rfl, rfl, rfl, rfl, rfl⟩

/-- C1, at the failing input: on the list of two nodes the source `a->next`
of `a = a->next` has the counter 201.  When the decrement step of the
assignment is over, the object `a` is alive and its `refCount` is still 200,
but the counter at 200 has been freed, and so have the node at 101 and the
counter at 201 that the assignment is about to take over and increment: no
counter is left for `a` to hold the number of its sharers in, `use_count()`
of `a` would read freed memory, and the assignment cannot go on without
reading the destroyed `a->next`. -/
theorem SharedPtr.owning_copyAssign_leaves_freed_counter :
    ∃ s s1, Owning.SharedPtr.listOfTwo = .ok s ∧
      lookup 10 s.objs = some ⟨some 101, some 201⟩ ∧
      Owning.SharedPtr.decrementRefCount Node.members 8 s 1 = .ok s1 ∧
      lookup 1 s1.objs = some ⟨some 100, some 200⟩ ∧
      SharedPtr.sharers s1 200 = 1 ∧
      lookup 200 s1.cells = none ∧ 200 ∈ s1.freed ∧
      lookup 201 s1.cells = none ∧ 201 ∈ s1.freed ∧
      lookup 101 s1.cells = none ∧ 101 ∈ s1.freed ∧
      SharedPtr.use_count s1 1 = .error .invalidAccess ∧
      Owning.SharedPtr.copyAssign Node.members 8 s 1 10 = .error .badObject :=
  ⟨_, _, rfl, rfl, rfl, rfl, rfl, rfl, by decide, rfl, by decide, rfl, by decide, rfl,
    rfl⟩

/-- C16, at the failing input: on the list of two nodes `a` has the counter
200 holding 1 and `b = a->next` has the different counter 201 holding 1.  In
`a = b` the decrement step frees the first node and the counter 200, and with
the node its member `b`, the second node and the counter 201; the assignment
stops where it reads `b`, so `a` and `b` do not come to share a counter
holding 2. -/
theorem SharedPtr.owning_copyAssign_from_member_fails :
    ∃ s s1, Owning.SharedPtr.listOfTwo = .ok s ∧
      lookup 1 s.objs = some ⟨some 100, some 200⟩ ∧
      lookup 200 s.cells = some (.cnt 1) ∧
      lookup 10 s.objs = some ⟨some 101, some 201⟩ ∧
      lookup 201 s.cells = some (.cnt 1) ∧
      Owning.SharedPtr.decrementRefCount Node.members 8 s 1 = .ok s1 ∧
      s1.freed = s.freed ++ [211, 101, 201, 100, 200] ∧
      lookup 201 s1.cells = none ∧ lookup 10 s1.objs = none ∧
      Owning.SharedPtr.copyAssign Node.members 8 s 1 10 = .error .badObject :=
  ⟨_, _, rfl, rfl, rfl, rfl, rfl, rfl, rfl, rfl, rfl, rfl⟩

end OwningPointees

end SmartPointers
